import Mathlib

/-!
Verification development for the Leucine Narration Maker workflow converter
(`src/App.jsx`).  The core of the repository is the pure transformation
`processWorkflow` together with its helper formatters, index builders and
field-text synthesizers.  This file gives a shallow embedding of that core:
JavaScript strings become `String`, possibly-`undefined` values become
`Option`, JS objects used as dictionaries become functions
`String → Option _` (property keys are coerced to strings exactly as in JS),
and every function is translated clause by clause from the source.

Modelling conventions, stated once:
* JS property-key coercion `obj[v]` stringifies `v`; `jsKey` models this.
* `Number(s)` is modelled for decimal-integer strings; every other string
  (as in JS for non-numeric strings) yields NaN, whose property key is the
  string "NaN".  (JS additionally parses floats/hex/empty strings; no input
  used below depends on that difference.)
* Character classes `[A-Z]`, `\w`, `\s` and `toUpperCase`/`toLowerCase` are
  modelled over their ASCII meaning, matching the regexes in the source.
* A JS map value that is stored while possibly `undefined` is stored as ""
  here; every read of these maps in the source is guarded by falsiness, for
  which `undefined` and "" are interchangeable.
-/

namespace Leucine

/-! ## JavaScript primitive values and coercions -/

/-- A primitive identifier value as it appears in the JSON input: the source
stresses that task ids may be either strings or numbers. -/
inductive JVal where
  | str (s : String)
  | num (n : Int)
deriving DecidableEq, Repr

/-- Decimal digits, most significant first, with a structural fuel argument
(`n` itself always suffices as fuel, since `n / 10 < n`). -/
def toDigitsAux : Nat → Nat → List Nat
  | 0, n => [n % 10]
  | fuel + 1, n => if n < 10 then [n] else toDigitsAux fuel (n / 10) ++ [n % 10]

/-- Decimal digits of a natural number, most significant first. -/
def toDigits (n : Nat) : List Nat := toDigitsAux n n

/-- The character for a single decimal digit. -/
def digitChar : Nat → Char
  | 0 => '0' | 1 => '1' | 2 => '2' | 3 => '3' | 4 => '4'
  | 5 => '5' | 6 => '6' | 7 => '7' | 8 => '8' | _ => '9'

/-- `String(n)` for a natural number. -/
def natToStr (n : Nat) : String :=
  String.mk ((toDigits n).map digitChar)

/-- `String(n)` for an integer (JS number-to-string on integral values). -/
def intToStr (n : Int) : String :=
  if n < 0 then "-" ++ natToStr n.natAbs else natToStr n.toNat

/-- ASCII decimal digit test. -/
def isDigitChar (c : Char) : Bool := 48 ≤ c.toNat && c.toNat ≤ 57

/-- Value of a decimal digit character. -/
def digitVal (c : Char) : Nat := c.toNat - 48

/-- Accumulate a digit list into a natural number. -/
def parseNatChars (l : List Char) : Nat :=
  l.foldl (fun acc c => acc * 10 + digitVal c) 0

/-- `Number(s)` on strings, restricted to decimal integers; `none` is NaN. -/
def parseIntS (s : String) : Option Int :=
  match s.data with
  | [] => none
  | c :: rest =>
    if c = '-' then
      if rest ≠ [] && rest.all isDigitChar then some (-(parseNatChars rest : Int)) else none
    else
      if (c :: rest).all isDigitChar then some ((parseNatChars (c :: rest) : Int)) else none

/-- JS property-key coercion and `String(v)` (they coincide). -/
def jsValToString : JVal → String
  | .str s => s
  | .num n => intToStr n

/-- The property key under which `obj[v]` stores/reads a value. -/
def jsKey (v : JVal) : String := jsValToString v

/-- The property key for `obj[Number(v)]`: non-numeric strings coerce to NaN,
whose key is the string "NaN". -/
def jsNumKey : JVal → String
  | .num n => intToStr n
  | .str s =>
    match parseIntS s with
    | some n => intToStr n
    | none => "NaN"

/-- JS falsiness-respecting `a || b` for a possibly-undefined string `a`. -/
def jsOrO (a b : Option String) : Option String :=
  match a with
  | some s => if s = "" then b else some s
  | none => b

/-- `a || d` with a string default. -/
def jsOrS (a : Option String) (d : String) : String :=
  match a with
  | some s => if s = "" then d else s
  | none => d

/-- `a || b || c || d` (JS `||` chain on strings). -/
def jsOr3 (a b c : Option String) (d : String) : String :=
  jsOrS a (jsOrS b (jsOrS c d))

/-- `a ?? b ?? c ?? d` (JS nullish chain: "" is kept, only absence falls
through). -/
def jsNullish3 (a b c : Option String) (d : String) : String :=
  match a with
  | some s => s
  | none =>
    match b with
    | some s => s
    | none =>
      match c with
      | some s => s
      | none => d

/-- JS truthiness of a possibly-undefined string. -/
def jsTruthyS : Option String → Bool
  | some s => s ≠ ""
  | none => false

/-- JS truthiness of a possibly-undefined primitive value. -/
def jsTruthyV : Option JVal → Bool
  | some (.str s) => s ≠ ""
  | some (.num n) => n ≠ 0
  | none => false

/-- Template-literal interpolation of a possibly-undefined string:
`undefined` interpolates as the text "undefined". -/
def jsDisp (o : Option String) : String := o.getD "undefined"

/-- `Array.prototype.join(sep)`. -/
def joinSep (sep : String) : List String → String
  | [] => ""
  | [x] => x
  | x :: y :: rest => x ++ sep ++ joinSep sep (y :: rest)

/-! ## ASCII character classes and case maps (the source's regexes are
ASCII: `[A-Z]`, `\w`, `\s`, `[a-f0-9]`) -/

/-- `[A-Z]`. -/
def isUpperA (c : Char) : Bool := 65 ≤ c.toNat && c.toNat ≤ 90

/-- `[a-z]`. -/
def isLowerA (c : Char) : Bool := 97 ≤ c.toNat && c.toNat ≤ 122

/-- `\w` = `[A-Za-z0-9_]`. -/
def isWordChar (c : Char) : Bool :=
  isUpperA c || isLowerA c || isDigitChar c || c = '_'

/-- `\s` (ASCII part: tab, line feed, vertical tab, form feed, carriage
return, space — codepoints 9–13 and 32). -/
def isWsChar (c : Char) : Bool :=
  (9 ≤ c.toNat && c.toNat ≤ 13) || c.toNat = 32

/-- ASCII `toLowerCase` on one character. -/
def asciiToLower (c : Char) : Char :=
  if isUpperA c then Char.ofNat (c.toNat + 32) else c

/-- ASCII `toUpperCase` on one character. -/
def asciiToUpper (c : Char) : Char :=
  if isLowerA c then Char.ofNat (c.toNat - 32) else c

/-- `toLowerCase` on a string. -/
def asciiLowerStr (s : String) : String := String.mk (s.data.map asciiToLower)

/-- `toUpperCase` on a string. -/
def asciiUpperStr (s : String) : String := String.mk (s.data.map asciiToUpper)

/-! ## `formatKey`: the generic humanizer

`key.replace(/([A-Z])/g, " $1").replace(/_/g, " ").replace(/\s+/g, " ")
    .trim().toLowerCase().replace(/^\w/, c => c.toUpperCase())` -/

/-- `replace(/([A-Z])/g, " $1")`: a space is inserted before every capital. -/
def expandCaps : List Char → List Char
  | [] => []
  | c :: rest => (if isUpperA c then [' ', c] else [c]) ++ expandCaps rest

/-- `replace(/_/g, " ")`. -/
def underscoresToSpaces (l : List Char) : List Char :=
  l.map (fun c => if c = '_' then ' ' else c)

/-- First half of `replace(/\s+/g, " ")`: each whitespace char becomes ' '. -/
def wsToSpace (l : List Char) : List Char :=
  l.map (fun c => if isWsChar c then ' ' else c)

/-- Second half of `replace(/\s+/g, " ")`: runs of spaces collapse to one. -/
def squeezeSpaces : List Char → List Char
  | [] => []
  | [c] => [c]
  | a :: b :: rest =>
    if a = ' ' && b = ' ' then squeezeSpaces (b :: rest)
    else a :: squeezeSpaces (b :: rest)

/-- No two adjacent spaces (the shape `squeezeSpaces` establishes). -/
def noAdjSp : List Char → Bool
  | a :: b :: rest => !(a = ' ' && b = ' ') && noAdjSp (b :: rest)
  | _ => true

/-- Leading-whitespace half of `trim()`. -/
def trimLead (l : List Char) : List Char := l.dropWhile isWsChar

/-- Trailing-whitespace half of `trim()`. -/
def trimTrail : List Char → List Char
  | [] => []
  | c :: rest =>
    let r := trimTrail rest
    if r = [] && isWsChar c then [] else c :: r

/-- `toLowerCase()` on a char list. -/
def lowerAll (l : List Char) : List Char := l.map asciiToLower

/-- `replace(/^\w/, c => c.toUpperCase())`. -/
def capFirstW : List Char → List Char
  | [] => []
  | c :: rest => if isWordChar c then asciiToUpper c :: rest else c :: rest

/-- The full humanizer pipeline on the character list of a string. -/
def humanizeChars (l : List Char) : List Char :=
  capFirstW (lowerAll (trimTrail (trimLead (squeezeSpaces (wsToSpace
    (underscoresToSpaces (expandCaps l)))))))

/-- `formatKey` from the source: `if (!key) return "";` then the pipeline. -/
def formatKey (s : String) : String :=
  if s = "" then "" else String.mk (humanizeChars s.data)

/-! ## Data model: read-only views of the parsed workflow JSON

Field names follow the source's property names (`show` and `type` are Lean
keywords and appear as `showParams` and `ptype`). -/

/-- An option / choice entry (`{id, name, label, displayName, value}`). -/
structure OptionDef where
  id : Option String := none
  name : Option String := none
  label : Option String := none
  displayName : Option String := none
  value : Option String := none
deriving DecidableEq, Repr

/-- One entry of `data.propertyFilters.fields`. -/
structure FilterField where
  field : Option String := none
  displayName : Option String := none
  externalId : Option String := none
  fieldType : Option String := none
  op : Option String := none
  selector : Option String := none
  values : Option (List JVal) := none
  referencedParameterId : Option JVal := none
deriving DecidableEq, Repr

/-- `data.propertyFilters`. -/
structure PropertyFilters where
  fields : Option (List FilterField) := none
deriving DecidableEq, Repr

/-- The object form of a parameter's `data` payload. -/
structure DataObj where
  choices : Option (List OptionDef) := none
  options : Option (List OptionDef) := none
  propertyFilters : Option PropertyFilters := none
  collection : Option String := none
  objectTypeDisplayName : Option String := none
  text : Option String := none
deriving DecidableEq, Repr

/-- A parameter's `data` payload: an array of options, an object, or absent. -/
inductive ParamData where
  | jarr (items : List OptionDef)
  | jobj (o : DataObj)
  | jnull
deriving DecidableEq, Repr

/-- One typed validation item (an entry of `dateTimeParameterValidations`,
`criteriaValidations`, `propertyValidations`, `resourceParameterValidations`
or `relationPropertyValidations`). -/
structure VItem where
  constraint : Option String := none
  selector : Option String := none
  value : Option JVal := none
  dateUnit : Option String := none
  errorMessage : Option String := none
  referencedParameterId : Option JVal := none
  propertyId : Option JVal := none
  parameterLabel : Option String := none
  minValue : Option JVal := none
  maxValue : Option JVal := none
  options : Option (List OptionDef) := none
  propertyDisplayName : Option String := none
  propertyExternalId : Option String := none
deriving DecidableEq, Repr

/-- The `customValidations` payload: a structured map (each value shown as
its already-serialized JSON text) or any other (string) value. -/
inductive CustomV where
  | cmap (entries : List (String × String))
  | cstr (s : String)
deriving DecidableEq, Repr

/-- JS truthiness of a `customValidations` payload. -/
def jsTruthyCV : CustomV → Bool
  | .cmap _ => true
  | .cstr s => s ≠ ""

/-- One validation group on a parameter. -/
structure Validation where
  exceptionApprovalType : Option String := none
  dateTimeParameterValidations : Option (List VItem) := none
  criteriaValidations : Option (List VItem) := none
  propertyValidations : Option (List VItem) := none
  resourceParameterValidations : Option (List VItem) := none
  relationPropertyValidations : Option (List VItem) := none
  customValidations : Option CustomV := none
deriving DecidableEq, Repr

/-- A visibility ("branching") rule: `rule.input` and `rule.show.parameters`
(the latter flattened through the optional chain). -/
structure Rule where
  input : Option (List JVal) := none
  showParams : Option (List JVal) := none
deriving DecidableEq, Repr

/-- A parameter (`type` appears as `ptype`). -/
structure Param where
  id : JVal
  label : Option String := none
  ptype : Option String := none
  mandatory : Bool := false
  verificationType : Option String := none
  data : ParamData := .jnull
  validations : Option (List Validation) := none
  rules : Option (List Rule) := none
deriving DecidableEq, Repr

/-- One `configuration` entry of an automation's action details. -/
structure Cfg where
  parameterLabel : Option String := none
  parameterDisplayName : Option String := none
  parameterId : Option JVal := none
deriving DecidableEq, Repr

/-- `automation.actionDetails`. -/
structure ActionDetails where
  objectTypeDisplayName : Option String := none
  referencedParameterId : Option JVal := none
  configuration : Option (List Cfg) := none
  choices : Option (List OptionDef) := none
deriving DecidableEq, Repr

/-- One automation rule on a task. -/
structure AutoReq where
  triggerType : Option String := none
  actionType : Option String := none
  displayName : Option String := none
  actionDetails : Option ActionDetails := none
deriving DecidableEq, Repr

/-- `task.taskExecutorLock`. -/
structure ExecutorLock where
  hasToBeExecutorId : Option JVal := none
  cannotBeExecutorIds : Option (List JVal) := none
deriving DecidableEq, Repr

/-- A task. -/
structure Task where
  id : JVal
  name : Option String := none
  orderTree : Option Int := none
  parameterRequests : Option (List Param) := none
  prerequisiteTaskIds : Option (List JVal) := none
  taskExecutorLock : Option ExecutorLock := none
  automationRequests : Option (List AutoReq) := none
deriving DecidableEq, Repr

/-- A stage. -/
structure Stage where
  name : Option String := none
  orderTree : Option Int := none
  taskRequests : Option (List Task) := none
deriving DecidableEq, Repr

/-- A property declaration on an object definition. -/
structure PropDef where
  id : JVal
  displayName : Option String := none
  name : Option String := none
  label : Option String := none
  choices : Option (List OptionDef) := none
deriving DecidableEq, Repr

/-- An entry of `wf.objects`. -/
structure ObjDef where
  properties : Option (List PropDef) := none
deriving DecidableEq, Repr

/-- An entry of `wf.objectRequests`. -/
structure ObjReq where
  propertyRequests : Option (List PropDef) := none
deriving DecidableEq, Repr

/-- The root workflow definition. -/
structure Workflow where
  stageRequests : Option (List Stage) := none
  parameterRequests : Option (List Param) := none
  objects : Option (List ObjDef) := none
  objectRequests : Option (List ObjReq) := none
deriving DecidableEq, Repr

/-! ## Task Position Index (`taskMap`, `lookupTask`) -/

/-- The info registered per task id. -/
structure TaskInfo where
  taskName : Option String
  stageName : Option String
  stageOrder : Int
  taskOrder : Int
deriving DecidableEq, Repr

/-- Dictionary update (JS `obj[k] = v`; later writes overwrite earlier). -/
def mupd {α : Type} (m : String → Option α) (k : String) (v : α) :
    String → Option α :=
  fun k2 => if k2 = k then some v else m k2

/-- The three writes performed per task:
`taskMap[task.id]`, `taskMap[String(task.id)]`, `taskMap[Number(task.id)]`.
The first two coerce to the same key; the third is the numeric form. -/
def registerTask (m : String → Option TaskInfo) (id : JVal) (info : TaskInfo) :
    String → Option TaskInfo :=
  mupd (mupd (mupd m (jsKey id) info) (jsKey id) info) (jsNumKey id) info

/-- Indexed fold, mirroring `forEach((x, idx) => ...)`. -/
def foldIdxAux {α β : Type} (f : β → Nat → α → β) : β → Nat → List α → β
  | b, _, [] => b
  | b, i, a :: as => foldIdxAux f (f b i a) (i + 1) as

/-- Indexed fold from index 0. -/
def foldIdx {α β : Type} (f : β → Nat → α → β) (b : β) (l : List α) : β :=
  foldIdxAux f b 0 l

/-- Build the task position index over all stages and tasks; stage/task order
default to the 1-based traversal position when `orderTree` is absent. -/
def buildTaskMap (wf : Workflow) : String → Option TaskInfo :=
  foldIdx
    (fun m stageIdx stage =>
      let stageOrder : Int := stage.orderTree.getD ((stageIdx : Int) + 1)
      foldIdx
        (fun m2 taskIdx task =>
          let taskOrder : Int := task.orderTree.getD ((taskIdx : Int) + 1)
          registerTask m2 task.id
            ⟨task.name, stage.name, stageOrder, taskOrder⟩)
        m (stage.taskRequests.getD []))
    (fun _ => none) (wf.stageRequests.getD [])

/-- `lookupTask`: `taskMap[taskId] || taskMap[String(taskId)] ||
taskMap[Number(taskId)] || null` (the first two attempts coincide after key
coercion). -/
def lookupTask (m : String → Option TaskInfo) (taskId : JVal) :
    Option TaskInfo :=
  match m (jsKey taskId) with
  | some info => some info
  | none =>
    match m (jsKey taskId) with
    | some info => some info
    | none => m (jsNumKey taskId)

/-! ## Coded-value formatters (fixed dictionaries with `formatKey` fallback) -/

/-- `formatConstraint`. -/
def formatConstraint (s : String) : String :=
  if s = "" then "" else
  let u := asciiUpperStr s
  if u = "EQ" then "equals"
  else if u = "NEQ" then "not equals"
  else if u = "NE" then "not equals"
  else if u = "LT" then "is less than"
  else if u = "LTE" then "is less than or equal to"
  else if u = "LE" then "is less than or equal to"
  else if u = "GT" then "is greater than"
  else if u = "GTE" then "is greater than or equal to"
  else if u = "GE" then "is greater than or equal to"
  else if u = "CONTAINS" then "contains"
  else if u = "NOT_CONTAINS" then "does not contain"
  else if u = "STARTS_WITH" then "starts with"
  else if u = "ENDS_WITH" then "ends with"
  else if u = "IN" then "is in"
  else if u = "NOT_IN" then "is not in"
  else if u = "BETWEEN" then "is between"
  else if u = "IS_NULL" then "is empty"
  else if u = "IS_NOT_NULL" then "is not empty"
  else formatKey s

/-- `formatExceptionType` (absent/empty yields "Default"). -/
def formatExceptionType (o : Option String) : String :=
  match o with
  | none => "Default"
  | some s =>
    if s = "" then "Default" else
    let u := asciiUpperStr s
    if u = "DEFAULT_FLOW" then "Halt Parameter Exception"
    else if u = "HALT_PARAMETER_EXCEPTION" then "Halt Parameter Exception"
    else if u = "SKIP_EXCEPTION" then "Skip Exception"
    else if u = "WARNING_ONLY" then "Warning Only"
    else if u = "WARNING" then "Warning Only"
    else if u = "APPROVAL_REQUIRED" then "Approval Required"
    else if u = "SOFT_EXCEPTION" then "Soft Exception"
    else if u = "HARD_EXCEPTION" then "Hard Exception"
    else formatKey s

/-- `formatSelector`. -/
def formatSelector (s : String) : String :=
  if s = "" then "" else
  let u := asciiUpperStr s
  if u = "CONSTANT" then "Constant"
  else if u = "PARAMETER" then "Parameter"
  else if u = "PROPERTY" then "Property"
  else if u = "VARIABLE" then "Variable"
  else if u = "EXPRESSION" then "Expression"
  else if u = "NONE" then "None"
  else formatKey s

/-- `formatUnit`. -/
def formatUnit (s : String) : String :=
  if s = "" then "" else
  let u := asciiUpperStr s
  if u = "DAYS" then "Days from today"
  else if u = "DAY" then "Days from today"
  else if u = "HOURS" then "Hours from now"
  else if u = "HOUR" then "Hours from now"
  else if u = "MINUTES" then "Minutes from now"
  else if u = "MINUTE" then "Minutes from now"
  else if u = "WEEKS" then "Weeks from today"
  else if u = "WEEK" then "Weeks from today"
  else if u = "MONTHS" then "Months from today"
  else if u = "MONTH" then "Months from today"
  else if u = "YEARS" then "Years from today"
  else if u = "YEAR" then "Years from today"
  else formatKey s

/-! ## Reference Index Builder

Four dictionaries, built by one traversal (`parameterMap`, `propertyNameMap`,
`optionMap`, `visibilityMap`), all keyed by JS-coerced strings. -/

/-- The four lookup tables built per workflow definition. -/
structure Maps where
  parameterMap : String → Option String
  propertyNameMap : String → Option String
  optionMap : String → Option String
  visibilityMap : String → Option String

/-- The empty tables. -/
def emptyMaps : Maps := ⟨fun _ => none, fun _ => none, fun _ => none, fun _ => none⟩

/-- The option list of a parameter's data payload: a direct array, else
`data.choices`, else `data.options`, else empty. -/
def paramOptionsList (p : Param) : List OptionDef :=
  match p.data with
  | .jarr l => l
  | .jobj o =>
    match o.choices with
    | some cs => cs
    | none => o.options.getD []
  | .jnull => []

/-- Registration of one option entry (three independent truthiness-guarded
writes: by id, by name, by value; display text `name ?? label ?? displayName
?? key`). -/
def collectParamOption (m : Maps) (opt : OptionDef) : Maps :=
  let m1 :=
    if jsTruthyS opt.id then
      let v := jsNullish3 opt.name opt.label opt.displayName (opt.id.getD "")
      { m with optionMap := mupd m.optionMap (opt.id.getD "") v }
    else m
  let m2 :=
    if jsTruthyS opt.name then
      { m1 with optionMap := mupd m1.optionMap (opt.name.getD "") (opt.name.getD "") }
    else m1
  if jsTruthyS opt.value then
    let v := jsNullish3 opt.name opt.label opt.displayName (opt.value.getD "")
    { m2 with optionMap := mupd m2.optionMap (opt.value.getD "") v }
  else m2

/-- Property-id extraction from one `propertyFilters` field
(`searchable.<id>` pattern, then the displayName-by-full-field write). -/
def collectFilterField (m : Maps) (f : FilterField) : Maps :=
  let m1 :=
    match f.field with
    | some fd =>
      if fd ≠ "" && fd.startsWith "searchable." then
        let propId := (fd.splitOn ".").getD 1 ""
        if jsTruthyS f.displayName then
          { m with propertyNameMap := mupd m.propertyNameMap propId (f.displayName.getD "") }
        else if jsTruthyS f.externalId then
          { m with propertyNameMap := mupd m.propertyNameMap propId (f.externalId.getD "") }
        else m
      else m
    | none => m
  match f.displayName, f.field with
  | some dn, some fd =>
    if dn ≠ "" && fd ≠ "" then
      { m1 with propertyNameMap := mupd m1.propertyNameMap fd dn }
    else m1
  | _, _ => m1

/-- Option and property-name registration from one `propertyValidations`
entry. -/
def collectPV (m : Maps) (pv : VItem) : Maps :=
  let m1 :=
    match pv.options with
    | some opts =>
      opts.foldl
        (fun mm opt =>
          if jsTruthyS opt.id then
            let v := jsOr3 opt.displayName opt.name opt.label (opt.id.getD "")
            { mm with optionMap := mupd mm.optionMap (opt.id.getD "") v }
          else mm)
        m
    | none => m
  if jsTruthyV pv.propertyId then
    let propName := jsOrO pv.propertyDisplayName pv.propertyExternalId
    if jsTruthyS propName then
      let k := jsKey (pv.propertyId.getD (.str ""))
      { m1 with propertyNameMap := mupd m1.propertyNameMap k (propName.getD "") }
    else m1
  else m1

/-- One visibility rule: resolve the input tokens through the option map as
it stands, then register the generated sentence against every shown
parameter id. -/
def collectRule (label : Option String) (m : Maps) (rule : Rule) : Maps :=
  let inputValues :=
    joinSep " / "
      ((rule.input.getD []).map
        (fun inp => jsOrS (m.optionMap (jsKey inp)) (jsValToString inp)))
  let sentence := "Visible when \"" ++ jsDisp label ++ "\" is \"" ++ inputValues ++ "\""
  (rule.showParams.getD []).foldl
    (fun mm targetId =>
      { mm with visibilityMap := mupd mm.visibilityMap (jsKey targetId) sentence })
    m

/-- `collectParam`: label registration, option extraction, filter-embedded
property ids, validation-nested options/properties, then visibility rules —
in the source's statement order (the label, possibly undefined in JS, is
stored as "": every read of these maps is falsiness-guarded). -/
def collectParam (m : Maps) (p : Param) : Maps :=
  let m1 := { m with parameterMap := mupd m.parameterMap (jsKey p.id) (p.label.getD "") }
  let m2 := { m1 with propertyNameMap := mupd m1.propertyNameMap (jsKey p.id) (p.label.getD "") }
  let m3 := (paramOptionsList p).foldl collectParamOption m2
  let m4 :=
    match p.data with
    | .jobj o =>
      match o.propertyFilters with
      | some pf =>
        match pf.fields with
        | some fields => fields.foldl collectFilterField m3
        | none => m3
      | none => m3
    | _ => m3
  let m5 :=
    match p.validations with
    | some vs =>
      vs.foldl (fun mm v => (v.propertyValidations.getD []).foldl collectPV mm) m4
    | none => m4
  match p.rules with
  | some (r :: rs) => (r :: rs).foldl (collectRule p.label) m5
  | _ => m5

/-- Property registration from one object-definition property (and its
choice list). -/
def registerPropDef (m : Maps) (p : PropDef) : Maps :=
  let v := jsOr3 p.displayName p.name p.label (jsValToString p.id)
  let m1 := { m with propertyNameMap := mupd m.propertyNameMap (jsKey p.id) v }
  match p.choices with
  | some cs =>
    cs.foldl
      (fun mm ch =>
        if jsTruthyS ch.id then
          let cv := jsOr3 ch.displayName ch.name ch.label (ch.id.getD "")
          { mm with optionMap := mupd mm.optionMap (ch.id.getD "") cv }
        else mm)
      m1
  | none => m1

/-- Choice registration from one automation's action details. -/
def collectAutomationChoices (m : Maps) (auto : AutoReq) : Maps :=
  match auto.actionDetails with
  | some ad =>
    match ad.choices with
    | some cs =>
      cs.foldl
        (fun mm ch =>
          if jsTruthyS ch.id then
            let cv := jsOr3 ch.displayName ch.name ch.label (ch.id.getD "")
            { mm with optionMap := mupd mm.optionMap (ch.id.getD "") cv }
          else mm)
        m
    | none => m
  | none => m

/-- Build all four tables for one definition, in the source's order:
object properties, object-request properties, top-level parameters, then
stage/task parameters followed by automation choices. -/
def buildMaps (wf : Workflow) : Maps :=
  let m1 := (wf.objects.getD []).foldl
    (fun m obj => (obj.properties.getD []).foldl registerPropDef m) emptyMaps
  let m2 := (wf.objectRequests.getD []).foldl
    (fun m obj => (obj.propertyRequests.getD []).foldl registerPropDef m) m1
  let m3 := (wf.parameterRequests.getD []).foldl collectParam m2
  (wf.stageRequests.getD []).foldl
    (fun m stage =>
      (stage.taskRequests.getD []).foldl
        (fun mm task =>
          let mm1 := (task.parameterRequests.getD []).foldl collectParam mm
          (task.automationRequests.getD []).foldl collectAutomationChoices mm1)
        m)
    m3

/-! ## Field Text Synthesizers -/

/-- `^[a-f0-9]{24}$`: exactly 24 lowercase-hex characters. -/
def hex24 (s : String) : Bool :=
  s.data.length == 24 &&
    s.data.all (fun c => (97 ≤ c.toNat && c.toNat ≤ 102) || (48 ≤ c.toNat && c.toNat ≤ 57))

/-- A conditionally pushed line (`if (cond) parts.push(x)`). -/
def optList (cond : Bool) (x : String) : List String :=
  if cond then [x] else []

/-- Map with the element's 0-based index (`(x, idx) => ...`). -/
def mapIdxAux {α β : Type} (f : Nat → α → β) : Nat → List α → List β
  | _, [] => []
  | i, a :: as => f i a :: mapIdxAux f (i + 1) as

/-- Map with the element's 0-based index, from 0. -/
def mapIdxL {α β : Type} (f : Nat → α → β) (l : List α) : List β :=
  mapIdxAux f 0 l

/-- The filter-key resolution of `getFiltersText`: strip the
`searchable.<id>` pattern or match a bare 24-hex id against the property
names; a readable (dot-free, non-id) key passes through verbatim. -/
def resolveFieldName (maps : Maps) (f : FilterField) : Option String :=
  let fieldName := jsOrO f.displayName (jsOrO f.externalId (jsOrO f.field none))
  match fieldName with
  | some fn =>
    if fn.startsWith "searchable." then
      maps.propertyNameMap ((fn.splitOn ".").getD 1 "")
    else if hex24 fn then
      maps.propertyNameMap fn
    else if fn ≠ "" && !(fn.contains '.') && !(hex24 fn) then
      some fn
    else none
  | none => none

/-- Per-value resolution for a filter's `Values:` line: identifier-shaped
strings resolve through the option/property maps or are dropped (`none`);
anything else passes through stringified. -/
def resolveFilterValue (maps : Maps) (v : JVal) : Option String :=
  match v with
  | .str s =>
    if hex24 s then
      let r := jsOrO (maps.optionMap s) (maps.propertyNameMap s)
      if jsTruthyS r then r else none
    else some s
  | .num n => some (intToStr n)

/-- The resolved display values of a filter field's value list. -/
def resolvedFilterValues (maps : Maps) (vs : List JVal) : List String :=
  vs.filterMap (resolveFilterValue maps)

/-- The `Values:` line of one filter field: emitted only when values are
present, the selector is truthy and not "PARAMETER", and at least one value
survives resolution. -/
def filterValuesLine (maps : Maps) (f : FilterField) : List String :=
  if (f.values matches some _) && (f.values.getD []).length > 0 &&
      jsTruthyS f.selector && asciiUpperStr (f.selector.getD "") ≠ "PARAMETER" then
    if (resolvedFilterValues maps (f.values.getD [])).length > 0 then
      ["Values: " ++ joinSep ", " (resolvedFilterValues maps (f.values.getD []))]
    else []
  else []

/-- The `Referenced Parameter:` line of one filter field. -/
def filterRefLine (maps : Maps) (f : FilterField) : List String :=
  if jsTruthyV f.referencedParameterId then
    let rid := f.referencedParameterId.getD (.str "")
    ["Referenced Parameter: " ++ jsOrS (maps.parameterMap (jsKey rid)) (jsValToString rid)]
  else []

/-- The `parts` lines of one filter field. -/
def filterFieldParts (maps : Maps) (f : FilterField) : List String :=
  let rfn := resolveFieldName maps f
  optList (jsTruthyS rfn) ("Field: " ++ rfn.getD "")
    ++ optList (jsTruthyS f.fieldType) ("Type: " ++ formatKey (f.fieldType.getD ""))
    ++ optList (jsTruthyS f.op) ("Condition: " ++ formatConstraint (f.op.getD ""))
    ++ optList (jsTruthyS f.selector) ("Selector: " ++ formatSelector (f.selector.getD ""))
    ++ filterValuesLine maps f
    ++ filterRefLine maps f

/-- `getFiltersText`: one block per filter field, blocks joined by a blank
line; no descriptor or no fields yields "". -/
def getFiltersText (maps : Maps) (p : Param) : String :=
  match p.data with
  | .jobj o =>
    match o.propertyFilters with
    | some pf =>
      match pf.fields.getD [] with
      | [] => ""
      | fields =>
        joinSep "\n\n"
          (mapIdxL
            (fun idx f =>
              "Filter " ++ natToStr (idx + 1) ++ ":\n  "
                ++ joinSep "\n  " (filterFieldParts maps f))
            fields)
    | none => ""
  | _ => ""

/-- The resolved display of a validation item's value: identifier-shaped
CONSTANT values resolve through the option/property maps, falling back to
the raw value itself. -/
def vitemResolvedValue (maps : Maps) (v : VItem) (val : JVal) : String :=
  match val with
  | .str s =>
    if jsTruthyS v.selector && asciiUpperStr (v.selector.getD "") = "CONSTANT"
        && hex24 s then
      jsOrS (maps.optionMap s) (jsOrS (maps.propertyNameMap s) s)
    else s
  | .num n => intToStr n

/-- The `Value:` line of one validation item. -/
def vitemValueLine (maps : Maps) (v : VItem) : List String :=
  match v.value with
  | some val => ["  Value: " ++ vitemResolvedValue maps v val]
  | none => []

/-- The `Referenced Parameter:` line of one validation item. -/
def vitemRefLine (maps : Maps) (v : VItem) : List String :=
  if jsTruthyV v.referencedParameterId then
    let rid := v.referencedParameterId.getD (.str "")
    ["  Referenced Parameter: " ++ jsOrS (maps.parameterMap (jsKey rid)) (jsValToString rid)]
  else []

/-- The resolved property display of one validation item: an unresolved
identifier-shaped property reference resolves to nothing. -/
def vitemPropName (maps : Maps) (pid : JVal) : Option String :=
  let propName0 := maps.propertyNameMap (jsKey pid)
  if !(jsTruthyS propName0) then
    match pid with
    | .str s => if hex24 s then none else some s
    | .num n => some (intToStr n)
  else propName0

/-- The `Property:` line of one validation item. -/
def vitemPropLine (maps : Maps) (v : VItem) : List String :=
  if jsTruthyV v.propertyId then
    let pid := v.propertyId.getD (.str "")
    if jsTruthyS (vitemPropName maps pid) then
      ["  Property: " ++ (vitemPropName maps pid).getD ""]
    else []
  else []

/-- The `Min Value:` line of one validation item (present iff the source
field is defined). -/
def vitemMinLine (v : VItem) : List String :=
  match v.minValue with
  | some mv => ["  Min Value: " ++ jsValToString mv]
  | none => []

/-- The `Max Value:` line of one validation item. -/
def vitemMaxLine (v : VItem) : List String :=
  match v.maxValue with
  | some mv => ["  Max Value: " ++ jsValToString mv]
  | none => []

def vItemParts (maps : Maps) (exceptionType typeName : String) (idx : Nat)
    (v : VItem) : List String :=
  [typeName ++ " " ++ natToStr (idx + 1) ++ ":", "  Exception Type: " ++ exceptionType]
    ++ optList (jsTruthyS v.constraint) ("  Condition: " ++ formatConstraint (v.constraint.getD ""))
    ++ optList (jsTruthyS v.selector) ("  Selector: " ++ formatSelector (v.selector.getD ""))
    ++ vitemValueLine maps v
    ++ optList (jsTruthyS v.dateUnit) ("  Unit: " ++ formatUnit (v.dateUnit.getD ""))
    ++ optList (jsTruthyS v.errorMessage) ("  Error Message: \"" ++ v.errorMessage.getD "" ++ "\"")
    ++ vitemRefLine maps v
    ++ vitemPropLine maps v
    ++ optList (jsTruthyS v.parameterLabel) ("  Parameter: " ++ v.parameterLabel.getD "")
    ++ vitemMinLine v
    ++ vitemMaxLine v

/-- The block list contributed by one validation group (five typed lists in
fixed order, then the custom payload). -/
def validationBlocks (maps : Maps) (validation : Validation) : List String :=
  let et := formatExceptionType validation.exceptionApprovalType
  let typed := fun (arr : Option (List VItem)) (typeName : String) =>
    match arr with
    | some items =>
      mapIdxL (fun i v => joinSep "\n" (vItemParts maps et typeName i v)) items
    | none => []
  let custom : List String :=
    match validation.customValidations with
    | some cv =>
      if jsTruthyCV cv then
        [joinSep "\n"
          (["Custom Validation:", "  Exception Type: " ++ et]
            ++ (match cv with
                | .cmap entries => entries.map (fun kv => "  " ++ formatKey kv.1 ++ ": " ++ kv.2)
                | .cstr s => ["  Details: " ++ s]))]
      else []
    | none => []
  typed validation.dateTimeParameterValidations "Date/Time Validation"
    ++ typed validation.criteriaValidations "Criteria Validation"
    ++ typed validation.propertyValidations "Property Validation"
    ++ typed validation.resourceParameterValidations "Resource Validation"
    ++ typed validation.relationPropertyValidations "Relation Validation"
    ++ custom

/-- `getValidationsText`: all blocks over all groups joined by blank lines;
absence yields "". -/
def getValidationsText (maps : Maps) (p : Param) : String :=
  match p.validations with
  | none => ""
  | some [] => ""
  | some vs => joinSep "\n\n" ((vs.map (validationBlocks maps)).flatten)

/-- `getDependenciesText`: a two-line block per resolved prerequisite, a
raw-id "not found" line per unresolved one; no prerequisites yields "N/A". -/
def getDependenciesText (tm : String → Option TaskInfo) (task : Task) : String :=
  match task.prerequisiteTaskIds with
  | none => "N/A"
  | some [] => "N/A"
  | some prereqs =>
    let depLines := prereqs.map
      (fun tid =>
        match lookupTask tm tid with
        | some info =>
          "Stage " ++ intToStr info.stageOrder ++ ": " ++ jsDisp info.stageName
            ++ "\n  → Task " ++ intToStr info.stageOrder ++ "." ++ intToStr info.taskOrder
            ++ ": " ++ jsDisp info.taskName
        | none => "Task ID: " ++ jsValToString tid ++ " (not found in workflow)")
    "Tasks that need to be executed before this task:\n" ++ joinSep "\n" depLines

/-- `getExecutorLockText`: the has-to-be and cannot-be parts, joined by a
blank line; absence of both yields "N/A". -/
def getExecutorLockText (tm : String → Option TaskInfo) (task : Task) : String :=
  match task.taskExecutorLock with
  | none => "N/A"
  | some lock =>
    let hasPart : List String :=
      if jsTruthyV lock.hasToBeExecutorId then
        let hid := lock.hasToBeExecutorId.getD (.str "")
        match lookupTask tm hid with
        | some i =>
          ["Must be executed by same person as:\n  Task " ++ intToStr i.stageOrder ++ "."
            ++ intToStr i.taskOrder ++ ": " ++ jsDisp i.taskName ++ " (" ++ jsDisp i.stageName ++ ")"]
        | none => ["Must be executed by same person as: Task ID " ++ jsValToString hid]
      else []
    let cannotPart : List String :=
      match lock.cannotBeExecutorIds with
      | some (c :: cs) =>
        let cannotBe := (c :: cs).map
          (fun tid =>
            match lookupTask tm tid with
            | some i =>
              "Task " ++ intToStr i.stageOrder ++ "." ++ intToStr i.taskOrder ++ ": "
                ++ jsDisp i.taskName ++ " (" ++ jsDisp i.stageName ++ ")"
            | none => "Task ID: " ++ jsValToString tid)
        ["Cannot be executed by same person as:\n  " ++ joinSep "\n  " cannotBe]
      | _ => []
    let lines := hasPart ++ cannotPart
    if lines = [] then "N/A" else joinSep "\n\n" lines

/-! ## Automation Summarizer -/

/-- `(x || "").replace(/_/g, " ").toLowerCase()`. -/
def lowerSpaced (o : Option String) : String :=
  asciiLowerStr (String.mk ((jsOrS o "").data.map (fun c => if c = '_' then ' ' else c)))

/-- The `data.collection` of a parameter's payload, when the payload is an
object. -/
def collectionOf : ParamData → Option String
  | .jobj o => o.collection
  | _ => none

/-- `buildAutomationText`: one block per automation rule; no rules yields
empty text. -/
def buildAutomationText (wf : Workflow) (maps : Maps) (task : Task) : String :=
  match task.automationRequests with
  | none => ""
  | some [] => ""
  | some autos =>
    joinSep "\n\n"
      (autos.map
        (fun auto =>
          let trigger := lowerSpaced auto.triggerType
          let action := lowerSpaced auto.actionType
          let name := jsOrS auto.displayName "Unnamed Automation"
          let objectType0 := jsOrS (auto.actionDetails.bind (·.objectTypeDisplayName))
            "Unknown Object Type"
          let objectType :=
            if objectType0 = "Unknown Object Type"
                && jsTruthyV (auto.actionDetails.bind (·.referencedParameterId)) then
              let refId := (auto.actionDetails.bind (·.referencedParameterId)).getD (.str "")
              let cand1 := (wf.parameterRequests.getD []).find? (fun p => p.id == refId)
              let nested :=
                (((wf.stageRequests.getD []).map (fun s => s.taskRequests.getD [])).flatten.map
                  (fun t => t.parameterRequests.getD [])).flatten
              let refParam :=
                match cand1 with
                | some p => some p
                | none => nested.find? (fun p => p.id == refId)
              match refParam with
              | some rp =>
                if jsTruthyS (collectionOf rp.data) then (collectionOf rp.data).getD ""
                else objectType0
              | none => objectType0
            else objectType0
          let mappings :=
            match auto.actionDetails with
            | some ad =>
              match ad.configuration with
              | some cfgs =>
                let entries := cfgs.map
                  (fun cfg =>
                    let pid : String :=
                      match cfg.parameterId with
                      | some v => jsKey v
                      | none => "undefined"
                    let pl := jsOrS cfg.parameterLabel
                      (jsOrS cfg.parameterDisplayName
                        (jsOrS (maps.propertyNameMap pid) ""))
                    if pl ≠ "" then "• " ++ pl else "")
                joinSep "\n" (entries.filter (fun e => e ≠ ""))
              | none => ""
            | none => ""
          joinSep "\n"
            (["Automation: " ++ name, "Trigger: " ++ trigger, "Action: " ++ action,
              "Object Type: " ++ objectType]
              ++ (if mappings ≠ "" then ["Parameters to be automated:\n" ++ mappings] else []))))

/-! ## Record Builder and Workflow Assembler -/

/-- One flat record: every column of the source's fixed object literal, in
order.  A field holds `none` exactly when the JS value is `undefined`. -/
structure Row where
  stageName : Option String
  activityName : Option String
  performer : Option String
  activityDescription : Option String
  instructionTitle : Option String
  optionsValues : Option String
  fieldType : Option String
  paramType : Option String
  dependencies : Option String
  executorLock : Option String
  branching : Option String
  filters : Option String
  validations : Option String
  automationDetails : Option String
  configFeasibility : Option String
  configFeasibilityNotes : Option String
  configStatus : Option String
  isSelfVerification : Option String
  testerComments : Option String
  isPeerVerification : Option String
  testerCommentsB : Option String
deriving DecidableEq, Repr

/-- The record as the ordered association of column names to values, exactly
the key order of the source's object literal. -/
def Row.columns (r : Row) : List (String × Option String) :=
  [("Stage Name", r.stageName),
   ("Activity Name", r.activityName),
   ("Performer", r.performer),
   ("Activity Description in detail", r.activityDescription),
   ("Instruction Title", r.instructionTitle),
   ("Options / Values", r.optionsValues),
   ("Field Type", r.fieldType),
   ("Activity / Parameter Type", r.paramType),
   ("Dependencies", r.dependencies),
   ("Executor Lock", r.executorLock),
   ("Branching", r.branching),
   ("Filters", r.filters),
   ("Validations", r.validations),
   ("Automation Details", r.automationDetails),
   ("Configuration Feasibility", r.configFeasibility),
   ("Configuration Feasibility Notes", r.configFeasibilityNotes),
   ("Configuration Status", r.configStatus),
   ("IS SELF VERIFICATION PRESENT?", r.isSelfVerification),
   ("Tester Comments", r.testerComments),
   ("IS PEER VERIFICATION PRESENT?", r.isPeerVerification),
   ("Tester Comments (B)", r.testerCommentsB)]

/-- The `Options / Values` summary: direct list, nested choices, bracketed
resource marker, or bracketed instruction marker, in that priority. -/
def optionsSummary (p : Param) : String :=
  let joinOpts := fun (l : List OptionDef) =>
    joinSep " • "
      ((l.map (fun d => jsOrS d.name (jsOrS d.label (jsOrS d.value "")))).filter
        (fun s => s ≠ ""))
  match p.data with
  | .jarr l => joinOpts l
  | .jobj o =>
    match o.choices with
    | some cs => joinOpts cs
    | none =>
      if jsTruthyS o.collection then
        "[Resource: " ++ jsOrS o.objectTypeDisplayName (o.collection.getD "") ++ "]"
      else if jsTruthyS o.text then "[Instruction Text]"
      else "N/A"
  | .jnull => "N/A"

/-- `makeRow`: build one flat record; the task-level dependency,
executor-lock and automation columns are populated only when `isLastParam`
holds (and, for the first two, a task object was passed). -/
def makeRow (tm : String → Option TaskInfo) (maps : Maps)
    (stage task : Option String) (param : Param) (automationText : String)
    (taskObj : Option Task) (isLastParam : Bool) : Row :=
  let branchingText := jsOrS (maps.visibilityMap (jsKey param.id)) "N/A"
  let validationsText :=
    let t := getValidationsText maps param
    if t = "" then "N/A" else t
  let filtersText :=
    let t := getFiltersText maps param
    if t = "" then "N/A" else t
  let dependenciesText :=
    match taskObj with
    | some t => if isLastParam then getDependenciesText tm t else "N/A"
    | none => "N/A"
  let executorLockText :=
    match taskObj with
    | some t => if isLastParam then getExecutorLockText tm t else "N/A"
    | none => "N/A"
  let automationDetails := if isLastParam then automationText else ""
  let options := optionsSummary param
  { stageName := stage
    activityName := task
    performer := some "Performer/Verifier"
    activityDescription := some ("Performer provides input for " ++ jsDisp param.label ++ ".")
    instructionTitle := param.label
    optionsValues := some (if options = "" then "N/A" else options)
    fieldType := some (if param.mandatory then "Mandatory" else "Optional")
    paramType := some (jsOrS param.ptype "N/A")
    dependencies := some dependenciesText
    executorLock := some executorLockText
    branching := some branchingText
    filters := some filtersText
    validations := some validationsText
    automationDetails := some automationDetails
    configFeasibility := some "Configurable"
    configFeasibilityNotes := some "N/A"
    configStatus := some "Configured"
    isSelfVerification :=
      some (if param.verificationType = some "SELF" ∨ param.verificationType = some "BOTH"
        then "Enabled" else "Disabled")
    testerComments := some "N/A"
    isPeerVerification :=
      some (if param.verificationType = some "BOTH" then "Enabled" else "Disabled")
    testerCommentsB := some "N/A" }

/-- The records of one task: one per parameter, `isLastParam` at the final
declared index. -/
def taskRows (wf : Workflow) (tm : String → Option TaskInfo) (maps : Maps)
    (stage : Stage) (task : Task) : List Row :=
  let automationText := buildAutomationText wf maps task
  let params := task.parameterRequests.getD []
  mapIdxL
    (fun idx p =>
      makeRow tm maps stage.name task.name p automationText (some task)
        (idx == params.length - 1))
    params

/-- The records of all stages and tasks, in traversal order. -/
def stageRows (wf : Workflow) (tm : String → Option TaskInfo) (maps : Maps) :
    List Row :=
  ((wf.stageRequests.getD []).map
    (fun stage => ((stage.taskRequests.getD []).map (taskRows wf tm maps stage)).flatten)).flatten

/-- The records of the top-level ("Create Job Form") parameters: the stage
name is the literal creation-form name, the activity name is the parameter's
own label, and no task object or automation text is passed. -/
def cjfRows (wf : Workflow) (tm : String → Option TaskInfo) (maps : Maps) :
    List Row :=
  let ps := wf.parameterRequests.getD []
  mapIdxL
    (fun idx p =>
      makeRow tm maps (some "Create Job Form") p.label p "" none
        (idx == ps.length - 1))
    ps

/-- `processWorkflow`: build both indexes from scratch, then emit the stage
records followed by the creation-form records. -/
def processWorkflow (wf : Workflow) : List Row :=
  let tm := buildTaskMap wf
  let maps := buildMaps wf
  stageRows wf tm maps ++ cjfRows wf tm maps

/-- The batch loop of `handleFileUpload`: each definition's records are
appended to one shared list. -/
def processBatch (wfs : List Workflow) : List Row :=
  wfs.foldl (fun acc wf => acc ++ processWorkflow wf) []

/-- Membership test for the creation-form partition. -/
def isCJF (r : Row) : Bool := r.stageName == some "Create Job Form"

/-- The final ordering rule: creation-form records first, then the rest,
each by one `filter` pass (hence in original relative order). -/
def sortedRows (rows : List Row) : List Row :=
  rows.filter isCJF ++ rows.filter (fun r => !(isCJF r))

/-- End-to-end batch processing as in `handleFileUpload`. -/
def handleFileUpload (wfs : List Workflow) : List Row :=
  sortedRows (processBatch wfs)

/-! ## Auxiliary predicates and notions used to state the properties -/

/-- Prefix test on character lists. -/
def listHasPre : List Char → List Char → Bool
  | [], _ => true
  | _ :: _, [] => false
  | a :: as, b :: bs => a == b && listHasPre as bs

/-- "`s` starts with `pre`". -/
def strHasPre (pre s : String) : Bool := listHasPre pre.data s.data

/-- Substring test on character lists (needle first). -/
def strContainsAux (n : List Char) : List Char → Bool
  | [] => listHasPre n []
  | c :: rest => listHasPre n (c :: rest) || strContainsAux n rest

/-- "`hay` contains `needle` as a contiguous substring". -/
def strContains (hay needle : String) : Bool := strContainsAux needle.data hay.data

/-- The task-level columns of a record hold exactly the placeholder values
("N/A", "N/A", and the empty automation text). -/
def placeholderTaskCols (r : Row) : Bool :=
  r.dependencies == some "N/A" && r.executorLock == some "N/A"
    && r.automationDetails == some ""

/-- A record whose task-level columns are not all placeholders. -/
def nonPlaceholderTaskCols (r : Row) : Bool := !(placeholderTaskCols r)

/-- The fixed, ordered column-name list of every record. -/
def rowColumnNames : List String :=
  ["Stage Name", "Activity Name", "Performer", "Activity Description in detail",
   "Instruction Title", "Options / Values", "Field Type", "Activity / Parameter Type",
   "Dependencies", "Executor Lock", "Branching", "Filters", "Validations",
   "Automation Details", "Configuration Feasibility", "Configuration Feasibility Notes",
   "Configuration Status", "IS SELF VERIFICATION PRESENT?", "Tester Comments",
   "IS PEER VERIFICATION PRESENT?", "Tester Comments (B)"]

/-- All creation-form records precede all other records. -/
def cjfFirst (l : List Row) : Bool :=
  (l.dropWhile isCJF).all (fun r => !(isCJF r))

/-- The empty task index. -/
def emptyTM : String → Option TaskInfo := fun _ => none

/-- Digit-list accumulation with an initial value (decimal place-value). -/
def parseDigitsFrom (a : Nat) (l : List Nat) : Nat :=
  l.foldl (fun acc d => acc * 10 + d) a

/-! ## Concrete inputs used by the counterexamples and witnesses -/

/-- A 24-character lowercase-hex identifier that resolves in no mapping. -/
def hexId : String := "0123456789abcdef01234567"

/-- C1: a task with one parameter and no prerequisites, lock or automation. -/
def exC1param : Param := { id := .str "p1", label := some "P1" }

/-- C1: the enclosing task. -/
def exC1task : Task :=
  { id := .str "t1", name := some "T1", parameterRequests := some [exC1param] }

/-- C1: the enclosing stage. -/
def exC1stage : Stage := { name := some "S1", taskRequests := some [exC1task] }

/-- C1: the enclosing workflow. -/
def exC1wf : Workflow := { stageRequests := some [exC1stage] }

/-- C1 witness: a first task, referenced as a prerequisite. -/
def exW1taskA : Task := { id := .str "a", name := some "TA" }

/-- C1 witness: a two-parameter task with a prerequisite. -/
def exW1taskB : Task :=
  { id := .str "b", name := some "TB",
    parameterRequests := some [{ id := .str "q1", label := some "Q1" },
                               { id := .str "q2", label := some "Q2" }],
    prerequisiteTaskIds := some [.str "a"] }

/-- C1 witness: the enclosing stage. -/
def exW1stage : Stage :=
  { name := some "SW", taskRequests := some [exW1taskA, exW1taskB] }

/-- C1 witness: the enclosing workflow. -/
def exW1wf : Workflow := { stageRequests := some [exW1stage] }

/-- C2: the stage of `exC2wf`. -/
def exC2stage : Stage :=
  { name := some "S1", taskRequests := some [{ id := .str "abc", name := some "T1" }] }

/-- C2: a workflow whose only task has the non-numeric identifier "abc". -/
def exC2wf : Workflow := { stageRequests := some [exC2stage] }

/-- C3: the single task of `exC3wf`. -/
def exC3task : Task :=
  { id := .str "t", name := some "T",
    parameterRequests := some [{ id := .str "x", label := some "X" }] }

/-- C3: the stage of `exC3wf`. -/
def exC3stage : Stage := { name := some "S1", taskRequests := some [exC3task] }

/-- C3: a workflow producing one task record and one creation-form record
(in that pre-assembly order). -/
def exC3wf : Workflow :=
  { stageRequests := some [exC3stage],
    parameterRequests := some [{ id := .str "c", label := some "C" }] }

/-- C4 witness: a CONSTANT-selector filter field whose only value is an
unresolvable 24-hex identifier. -/
def exC4field : FilterField :=
  { selector := some "CONSTANT", values := some [.str hexId], op := some "EQ" }

/-- C5: a validation item whose CONSTANT value is an unresolvable 24-hex
identifier. -/
def exC5item : VItem := { selector := some "CONSTANT", value := some (.str hexId) }

/-- C5: a parameter carrying that validation item. -/
def exC5param : Param :=
  { id := .str "p5", label := some "P5",
    validations := some [{ criteriaValidations := some [exC5item] }] }

/-- C5 witness: a validation item with an unresolvable 24-hex property
reference. -/
def exC5vprop : VItem := { propertyId := some (.str hexId) }

/-- C5 witness: a task with an unresolvable prerequisite. -/
def exC5task : Task := { id := .str "t5", prerequisiteTaskIds := some [.str "missing"] }

/-- C7: a parameter tagged for peer verification only. -/
def exC7peer : Param := { id := .str "p7", verificationType := some "PEER" }

/-- C7: a parameter tagged for both verifications. -/
def exC7both : Param := { id := .str "p7b", verificationType := some "BOTH" }

/-- C7: a parameter tagged for self verification only. -/
def exC7self : Param := { id := .str "p7s", verificationType := some "SELF" }

/-- C8: a parameter with no label. -/
def exC8param : Param := { id := .str "p8" }

/-- C10 witness: a workflow with two creation-form parameters. -/
def exC10wf : Workflow :=
  { parameterRequests := some [{ id := .str "ca", label := some "A" },
                               { id := .str "cb", label := some "B" }] }

/-! ## Helper lemmas: indexed maps -/

theorem length_mapIdxAux {α β : Type} (f : Nat → α → β) (k : Nat) (l : List α) :
    (mapIdxAux f k l).length = l.length := by
  induction l generalizing k with
  | nil => rfl
  | cons a tl ih => simp [mapIdxAux, ih]

theorem length_mapIdxL {α β : Type} (f : Nat → α → β) (l : List α) :
    (mapIdxL f l).length = l.length :=
  length_mapIdxAux f 0 l

theorem getElem?_mapIdxAux {α β : Type} (f : Nat → α → β) (k i : Nat) (l : List α) :
    (mapIdxAux f k l)[i]? = (l[i]?).map (f (k + i)) := by
  induction l generalizing k i with
  | nil => simp [mapIdxAux]
  | cons a tl ih =>
    cases i with
    | zero => simp [mapIdxAux]
    | succ j =>
      have h := ih (k + 1) j
      simp only [mapIdxAux, List.getElem?_cons_succ, h]
      have : k + 1 + j = k + (j + 1) := by omega
      rw [this]

theorem getElem?_mapIdxL {α β : Type} (f : Nat → α → β) (i : Nat) (l : List α) :
    (mapIdxL f l)[i]? = (l[i]?).map (f i) := by
  have h := getElem?_mapIdxAux f 0 i l
  simpa using h

/-- An indexed map whose function only tests "is this the final index"
splits into the mapped front and the final element. -/
theorem mapIdxAux_lastFlag {α β : Type} (g : Bool → α → β) (M : Nat) :
    ∀ (l : List α) (k : Nat), k + l.length = M →
      mapIdxAux (fun i p => g (i == M - 1) p) k l
        = l.dropLast.map (g false)
            ++ ((l.getLast?.map (fun a => [g true a])).getD []) := by
  intro l
  induction l with
  | nil => intro k _; rfl
  | cons a tl ih =>
    intro k hk
    cases tl with
    | nil =>
      have hkM : (k == M - 1) = true := by
        simp only [List.length_cons, List.length_nil] at hk
        have : k = M - 1 := by omega
        simp [this]
      simp [mapIdxAux, hkM]
    | cons b tl2 =>
      have hkM : (k == M - 1) = false := by
        simp only [List.length_cons] at hk
        have : k ≠ M - 1 := by omega
        simp [this]
      have h2 : k + 1 + (b :: tl2).length = M := by
        simp only [List.length_cons] at hk ⊢
        omega
      rw [show mapIdxAux (fun i p => g (i == M - 1) p) k (a :: b :: tl2)
            = g (k == M - 1) a
                :: mapIdxAux (fun i p => g (i == M - 1) p) (k + 1) (b :: tl2) from rfl]
      rw [ih (k + 1) h2, hkM]
      simp only [List.dropLast_cons₂, List.getLast?_cons_cons, List.map_cons,
        List.cons_append]

theorem mapIdxL_lastFlag {α β : Type} (g : Bool → α → β) (l : List α) :
    mapIdxL (fun i p => g (i == l.length - 1) p) l
      = l.dropLast.map (g false)
          ++ ((l.getLast?.map (fun a => [g true a])).getD []) :=
  mapIdxAux_lastFlag g l.length l 0 (by omega)

/-! ## Helper lemmas: string prefix and containment -/

theorem listHasPre_refl (l : List Char) : listHasPre l l = true := by
  induction l with
  | nil => rfl
  | cons a tl ih => simp [listHasPre, ih]

theorem listHasPre_append (l rest : List Char) : listHasPre l (l ++ rest) = true := by
  induction l with
  | nil => rfl
  | cons a tl ih => simp [listHasPre, ih]

theorem strContainsAux_of_hasPre (n h : List Char) (hp : listHasPre n h = true) :
    strContainsAux n h = true := by
  cases h with
  | nil => simpa [strContainsAux] using hp
  | cons c rest => simp [strContainsAux, hp]

theorem strContainsAux_append_right (n x y : List Char)
    (h : strContainsAux n y = true) : strContainsAux n (x ++ y) = true := by
  induction x with
  | nil => simpa using h
  | cons c rest ih =>
    show (listHasPre n (c :: (rest ++ y)) || strContainsAux n (rest ++ y)) = true
    rw [ih]
    simp

theorem string_data_append (a b : String) : (a ++ b).data = a.data ++ b.data := rfl

theorem strContains_append_right (a b n : String) (h : strContains b n = true) :
    strContains (a ++ b) n = true := by
  simp only [strContains, string_data_append]
  exact strContainsAux_append_right _ _ _ h

theorem strContains_self_append (n b : String) : strContains (n ++ b) n = true := by
  simp only [strContains, string_data_append]
  exact strContainsAux_of_hasPre _ _ (listHasPre_append _ _)

theorem strContains_refl (n : String) : strContains n n = true :=
  strContainsAux_of_hasPre _ _ (listHasPre_refl _)

theorem strContains_joinSep (sep : String) (lines : List String) (x : String)
    (hx : x ∈ lines) : strContains (joinSep sep lines) x = true := by
  induction lines with
  | nil => cases hx
  | cons a tl ih =>
    cases tl with
    | nil =>
      simp only [List.mem_singleton] at hx
      rw [show joinSep sep [a] = a from rfl, hx]
      exact strContains_refl _
    | cons b tl2 =>
      have hstep : joinSep sep (a :: b :: tl2) = a ++ (sep ++ joinSep sep (b :: tl2)) := by
        show a ++ sep ++ joinSep sep (b :: tl2) = _
        simp [String.append_assoc]
      rcases List.mem_cons.mp hx with h | h
      · rw [hstep, h]
        exact strContains_self_append _ _
      · rw [hstep]
        exact strContains_append_right _ _ _ (strContains_append_right _ _ _ (ih h))

theorem all_optList (p : String → Bool) (c : Bool) (x : String) :
    (optList c x).all p = (!c || p x) := by
  cases c <;> simp [optList]

theorem mem_optList {a x : String} {c : Bool} (h : a ∈ optList c x) : a = x := by
  cases c
  · simp [optList] at h
  · simp [optList] at h
    exact h

/-! ## Helper lemmas: decimal printing / parsing roundtrip -/

theorem toDigitsAux_ne_nil (fuel n : Nat) : toDigitsAux fuel n ≠ [] := by
  cases fuel with
  | zero => simp [toDigitsAux]
  | succ f =>
    rw [toDigitsAux]
    split <;> simp

theorem toDigits_ne_nil (n : Nat) : toDigits n ≠ [] := toDigitsAux_ne_nil n n

theorem toDigitsAux_lt (fuel : Nat) : ∀ n, ∀ d ∈ toDigitsAux fuel n, d < 10 := by
  induction fuel with
  | zero =>
    intro n d hd
    simp only [toDigitsAux, List.mem_singleton] at hd
    omega
  | succ f ih =>
    intro n d hd
    rw [toDigitsAux] at hd
    split at hd
    · simp only [List.mem_singleton] at hd
      omega
    · rcases List.mem_append.mp hd with h | h
      · exact ih (n / 10) d h
      · simp only [List.mem_singleton] at h
        omega

theorem toDigits_lt (n : Nat) : ∀ d ∈ toDigits n, d < 10 := toDigitsAux_lt n n

theorem parseDigitsFrom_toDigitsAux (fuel : Nat) :
    ∀ n, n ≤ fuel → parseDigitsFrom 0 (toDigitsAux fuel n) = n := by
  induction fuel with
  | zero =>
    intro n h
    have : n = 0 := by omega
    subst this
    rfl
  | succ f ih =>
    intro n h
    rw [toDigitsAux]
    split
    · simp [parseDigitsFrom]
    · rw [parseDigitsFrom, List.foldl_append]
      rw [show List.foldl (fun acc d => acc * 10 + d) 0 (toDigitsAux f (n / 10))
            = parseDigitsFrom 0 (toDigitsAux f (n / 10)) from rfl]
      have hdiv : n / 10 < n := Nat.div_lt_self (by omega) (by omega)
      rw [ih (n / 10) (by omega)]
      simp only [List.foldl_cons, List.foldl_nil]
      omega

theorem parseDigitsFrom_toDigits (n : Nat) : parseDigitsFrom 0 (toDigits n) = n :=
  parseDigitsFrom_toDigitsAux n n (Nat.le_refl n)

theorem digitVal_digitChar : ∀ d, d < 10 → digitVal (digitChar d) = d := by decide

theorem isDigit_digitChar : ∀ d, d < 10 → isDigitChar (digitChar d) = true := by decide

theorem digitChar_ne_dash (d : Nat) : digitChar d ≠ '-' := by
  unfold digitChar
  split <;> decide

theorem parseNatChars_digits_aux (l : List Nat) :
    ∀ a, (∀ d ∈ l, d < 10) →
      List.foldl (fun acc c => acc * 10 + digitVal c) a (l.map digitChar)
        = parseDigitsFrom a l := by
  induction l with
  | nil => intro a _; rfl
  | cons d tl ih =>
    intro a h
    have hd : d < 10 := h d (List.mem_cons_self d tl)
    simp only [List.map_cons, List.foldl_cons, parseDigitsFrom,
      digitVal_digitChar d hd]
    exact ih (a * 10 + d) (fun x hx => h x (List.mem_cons_of_mem d hx))

theorem parseNatChars_natToStr (m : Nat) :
    parseNatChars (natToStr m).data = m := by
  show parseNatChars ((toDigits m).map digitChar) = m
  rw [parseNatChars, parseNatChars_digits_aux (toDigits m) 0 (toDigits_lt m)]
  exact parseDigitsFrom_toDigits m

theorem natToStr_all_digits (m : Nat) : (natToStr m).data.all isDigitChar = true := by
  show ((toDigits m).map digitChar).all isDigitChar = true
  rw [List.all_eq_true]
  intro c hc
  rcases List.mem_map.mp hc with ⟨d, hd, rfl⟩
  exact isDigit_digitChar d (toDigits_lt m d hd)

theorem parseIntS_mk_dash (l : List Char) (hne : l ≠ [])
    (hall : l.all isDigitChar = true) :
    parseIntS (String.mk ('-' :: l)) = some (-(parseNatChars l : Int)) := by
  unfold parseIntS
  simp [hne, hall]

theorem parseIntS_mk_digits (c : Char) (rest : List Char) (hc : c ≠ '-')
    (hall : (c :: rest).all isDigitChar = true) :
    parseIntS (String.mk (c :: rest)) = some ((parseNatChars (c :: rest) : Int)) := by
  unfold parseIntS
  simp [hc, hall]

/-- The integer printer / parser roundtrip: `Number(String(n)) = n`. -/
theorem parseIntS_intToStr (n : Int) : parseIntS (intToStr n) = some n := by
  by_cases hn : n < 0
  · have h1 : intToStr n = String.mk ('-' :: (toDigits n.natAbs).map digitChar) := by
      rw [intToStr, if_pos hn]; rfl
    have hne : (toDigits n.natAbs).map digitChar ≠ [] := by
      simp [toDigits_ne_nil]
    have hall : ((toDigits n.natAbs).map digitChar).all isDigitChar = true :=
      natToStr_all_digits n.natAbs
    rw [h1, parseIntS_mk_dash _ hne hall]
    have h2 : parseNatChars ((toDigits n.natAbs).map digitChar) = n.natAbs :=
      parseNatChars_natToStr n.natAbs
    rw [h2]
    have : -((n.natAbs : Nat) : Int) = n := by omega
    rw [this]
  · have h1 : intToStr n = String.mk ((toDigits n.toNat).map digitChar) := by
      rw [intToStr, if_neg hn]; rfl
    obtain ⟨d, ds, hds⟩ : ∃ d ds, toDigits n.toNat = d :: ds := by
      rcases h : toDigits n.toNat with _ | ⟨d, ds⟩
      · exact absurd h (toDigits_ne_nil _)
      · exact ⟨d, ds, rfl⟩
    have hall : ((toDigits n.toNat).map digitChar).all isDigitChar = true :=
      natToStr_all_digits n.toNat
    rw [hds, List.map_cons] at hall
    rw [h1, hds, List.map_cons,
      parseIntS_mk_digits (digitChar d) (ds.map digitChar) (digitChar_ne_dash d) hall]
    have h3 := parseNatChars_natToStr n.toNat
    rw [show (natToStr n.toNat).data = (toDigits n.toNat).map digitChar from rfl,
      hds, List.map_cons] at h3
    rw [h3]
    have : ((n.toNat : Nat) : Int) = n := by omega
    rw [this]

/-! ## Claim C9: batch compositionality -/

theorem processBatch_foldl_aux (l : List Workflow) : ∀ init : List Row,
    l.foldl (fun acc wf => acc ++ processWorkflow wf) init
      = init ++ (l.map processWorkflow).flatten := by
  induction l with
  | nil => intro init; simp
  | cons wf tl ih =>
    intro init
    simp only [List.foldl_cons, ih, List.map_cons, List.flatten_cons, List.append_assoc]

/-- Claim C9 (confirmed): all lookup tables are rebuilt per definition, so
the pre-partition record list of a batch equals the concatenation, in batch
order, of the record lists each definition produces when processed alone. -/
theorem c9_theorem (wfs : List Workflow) :
    processBatch wfs = (wfs.map (fun wf => processBatch [wf])).flatten
      ∧ processBatch wfs = (wfs.map processWorkflow).flatten := by
  have hb : ∀ wf, processBatch [wf] = processWorkflow wf := by
    intro wf
    show ([] : List Row) ++ processWorkflow wf = processWorkflow wf
    simp
  constructor
  · rw [processBatch, processBatch_foldl_aux]
    simp [hb]
  · rw [processBatch, processBatch_foldl_aux]
    simp

/-! ## Claim C3: the assembled output is a stable partition -/

/-- Claim C3 (confirmed): post-assembly, the record list is the stable
partition of the pre-assembly list by "Stage Name = Create Job Form": the
creation-form records keep their relative order and come first, the others
keep their relative order and come after, and the whole is a permutation of
the input. -/
theorem c3_theorem (rows srows : List Row) (hs : srows = sortedRows rows) :
    srows.filter isCJF = rows.filter isCJF
      ∧ srows.filter (fun r => !(isCJF r)) = rows.filter (fun r => !(isCJF r))
      ∧ List.Perm srows rows
      ∧ cjfFirst srows = true := by
  subst hs
  refine ⟨?_, ?_, ?_, ?_⟩
  · rw [sortedRows, List.filter_append, List.filter_filter, List.filter_filter]
    have h1 : (fun a => isCJF a && isCJF a) = isCJF := by
      funext a; cases isCJF a <;> rfl
    have h2 : ∀ l : List Row, l.filter (fun a => isCJF a && !(isCJF a)) = [] := by
      intro l
      apply List.filter_eq_nil_iff.mpr
      intro a _
      cases isCJF a <;> simp
    rw [h1, h2, List.append_nil]
  · rw [sortedRows, List.filter_append, List.filter_filter, List.filter_filter]
    have h1 : (fun a => !(isCJF a) && isCJF a) = fun a => false := by
      funext a; cases isCJF a <;> rfl
    have h2 : (fun a => !(isCJF a) && !(isCJF a)) = fun a => !(isCJF a) := by
      funext a; cases isCJF a <;> rfl
    rw [h1, h2, List.filter_false, List.nil_append]
  · exact List.filter_append_perm isCJF rows
  · rw [cjfFirst, sortedRows, List.dropWhile_append]
    have h1 : (rows.filter isCJF).dropWhile isCJF = [] := by
      apply List.dropWhile_eq_nil_iff.mpr
      intro x hx
      exact List.of_mem_filter hx
    rw [h1]
    simp only [List.isEmpty_nil, if_pos]
    have h2 : (rows.filter (fun r => !(isCJF r))).dropWhile isCJF
        = rows.filter (fun r => !(isCJF r)) := by
      rcases hfl : rows.filter (fun r => !(isCJF r)) with _ | ⟨a, tl⟩
      · rfl
      · have hmem : a ∈ rows.filter (fun r => !(isCJF r)) := by
          rw [hfl]; exact List.mem_cons_self _ _
        have ha := List.of_mem_filter hmem
        have hfa : isCJF a = false := by simpa using ha
        rw [List.dropWhile_cons_of_neg (by simp [hfa])]
    rw [h2]
    rw [List.all_eq_true]
    intro r hr
    have hr2 := List.of_mem_filter hr
    simpa using hr2

/-- Witness for C3 at a concrete two-record batch (one task record, one
creation-form record, out of order before assembly). -/
theorem c3_theorem_witness :
    (sortedRows (processWorkflow exC3wf)).filter isCJF
        = (processWorkflow exC3wf).filter isCJF
      ∧ (sortedRows (processWorkflow exC3wf)).filter (fun r => !(isCJF r))
        = (processWorkflow exC3wf).filter (fun r => !(isCJF r))
      ∧ List.Perm (sortedRows (processWorkflow exC3wf)) (processWorkflow exC3wf)
      ∧ cjfFirst (sortedRows (processWorkflow exC3wf)) = true :=
  c3_theorem (processWorkflow exC3wf) (sortedRows (processWorkflow exC3wf)) rfl

/-! ## Claim C7: verification-mode columns (code bug at tag "PEER") -/

/-- Claim C7 (code bug): the peer-verification column answers "IS PEER
VERIFICATION PRESENT?" with "Disabled" for a parameter whose
verification-mode tag is "PEER" (the code enables it only for "BOTH"),
while the self column behaves as claimed ("SELF" and "BOTH" enable it). -/
theorem c7_theorem :
    (makeRow emptyTM emptyMaps (some "S") (some "T") exC7peer "" none false).isPeerVerification
        = some "Disabled"
      ∧ (makeRow emptyTM emptyMaps (some "S") (some "T") exC7peer "" none false).isSelfVerification
        = some "Disabled"
      ∧ (makeRow emptyTM emptyMaps (some "S") (some "T") exC7both "" none false).isPeerVerification
        = some "Enabled"
      ∧ (makeRow emptyTM emptyMaps (some "S") (some "T") exC7both "" none false).isSelfVerification
        = some "Enabled"
      ∧ (makeRow emptyTM emptyMaps (some "S") (some "T") exC7self "" none false).isSelfVerification
        = some "Enabled"
      ∧ (makeRow emptyTM emptyMaps (some "S") (some "T") exC7self "" none false).isPeerVerification
        = some "Disabled" := by
  refine ⟨rfl, rfl, rfl, rfl, rfl, rfl⟩

/-! ## Claim C8: fixed column set; the Instruction Title passthrough -/

/-- Counterexample for C8: a parameter with no label produces a record whose
"Instruction Title" column is undefined, not a text value. -/
theorem c8_counterexample :
    (makeRow emptyTM emptyMaps (some "S") (some "T") exC8param "" none false).instructionTitle
      = none := rfl

/-- Claim C8 (corrected): every record carries exactly the fixed, ordered
column set, and every column holds a text value except the three
passthrough columns (Stage Name, Activity Name, Instruction Title), which
hold the source-supplied name or label verbatim and are undefined exactly
when it is absent. -/
theorem c8_theorem (tm : String → Option TaskInfo) (maps : Maps)
    (stage task : Option String) (p : Param) (autoText : String)
    (taskObj : Option Task) (isLast : Bool) :
    (makeRow tm maps stage task p autoText taskObj isLast).columns.map Prod.fst
        = rowColumnNames
      ∧ ((makeRow tm maps stage task p autoText taskObj isLast).columns.all
          (fun cv => cv.2.isSome
            || (cv.1 == "Stage Name" || cv.1 == "Activity Name"
                  || cv.1 == "Instruction Title"))) = true
      ∧ (makeRow tm maps stage task p autoText taskObj isLast).instructionTitle = p.label
      ∧ (makeRow tm maps stage task p autoText taskObj isLast).stageName = stage
      ∧ (makeRow tm maps stage task p autoText taskObj isLast).activityName = task := by
  refine ⟨rfl, ?_, rfl, rfl, rfl⟩
  simp [makeRow, Row.columns]

/-! ## Claim C10: creation-form records -/

/-- Claim C10 (confirmed): every creation-form record has stage name
"Create Job Form", activity name equal to the parameter's own label, and —
including on the final parameter — placeholder dependencies and executor
lock and empty automation details. -/
theorem c10_theorem (wf : Workflow) (tm : String → Option TaskInfo) (maps : Maps)
    (ps : List Param) (i : Nat)
    (htm : tm = buildTaskMap wf) (hm : maps = buildMaps wf)
    (hps : ps = wf.parameterRequests.getD []) (hi : i < ps.length) :
    (cjfRows wf tm maps).length = ps.length
      ∧ ((cjfRows wf tm maps)[i]?).map Row.stageName = some (some "Create Job Form")
      ∧ ((cjfRows wf tm maps)[i]?).map Row.activityName = (ps[i]?).map Param.label
      ∧ ((cjfRows wf tm maps)[i]?).map Row.instructionTitle = (ps[i]?).map Param.label
      ∧ ((cjfRows wf tm maps)[i]?).map Row.dependencies = some (some "N/A")
      ∧ ((cjfRows wf tm maps)[i]?).map Row.executorLock = some (some "N/A")
      ∧ ((cjfRows wf tm maps)[i]?).map Row.automationDetails = some (some "") := by
  subst htm hm hps
  obtain ⟨p, hp⟩ : ∃ p, (wf.parameterRequests.getD [])[i]? = some p := by
    rcases h : (wf.parameterRequests.getD [])[i]? with _ | p
    · rw [List.getElem?_eq_none_iff] at h
      omega
    · exact ⟨p, rfl⟩
  have hrow : (cjfRows wf (buildTaskMap wf) (buildMaps wf))[i]?
      = some (makeRow (buildTaskMap wf) (buildMaps wf) (some "Create Job Form")
          p.label p "" none (i == (wf.parameterRequests.getD []).length - 1)) := by
    rw [cjfRows, getElem?_mapIdxL, hp]
    rfl
  refine ⟨length_mapIdxL _ _, ?_, ?_, ?_, ?_, ?_, ?_⟩
  · rw [hrow]; simp [makeRow]
  · rw [hrow, hp]; simp [makeRow]
  · rw [hrow, hp]; simp [makeRow]
  · rw [hrow]; simp [makeRow]
  · rw [hrow]; simp [makeRow]
  · rw [hrow]; simp [makeRow]

/-- Witness for C10 at the final (index 1) creation-form parameter of a
two-parameter definition. -/
theorem c10_theorem_witness :
    (cjfRows exC10wf (buildTaskMap exC10wf) (buildMaps exC10wf)).length
        = (exC10wf.parameterRequests.getD []).length
      ∧ ((cjfRows exC10wf (buildTaskMap exC10wf) (buildMaps exC10wf))[1]?).map Row.stageName
        = some (some "Create Job Form")
      ∧ ((cjfRows exC10wf (buildTaskMap exC10wf) (buildMaps exC10wf))[1]?).map Row.activityName
        = ((exC10wf.parameterRequests.getD [])[1]?).map Param.label
      ∧ ((cjfRows exC10wf (buildTaskMap exC10wf) (buildMaps exC10wf))[1]?).map Row.instructionTitle
        = ((exC10wf.parameterRequests.getD [])[1]?).map Param.label
      ∧ ((cjfRows exC10wf (buildTaskMap exC10wf) (buildMaps exC10wf))[1]?).map Row.dependencies
        = some (some "N/A")
      ∧ ((cjfRows exC10wf (buildTaskMap exC10wf) (buildMaps exC10wf))[1]?).map Row.executorLock
        = some (some "N/A")
      ∧ ((cjfRows exC10wf (buildTaskMap exC10wf) (buildMaps exC10wf))[1]?).map Row.automationDetails
        = some (some "") :=
  c10_theorem exC10wf (buildTaskMap exC10wf) (buildMaps exC10wf)
    (exC10wf.parameterRequests.getD []) 1 rfl rfl rfl (by decide)

/-! ## Claim C1: task-level columns appear on the last parameter only -/

/-- The record list of a task splits into the non-final parameters (flag
off) and the final parameter (flag on). -/
theorem taskRows_eq (wf : Workflow) (tm : String → Option TaskInfo) (maps : Maps)
    (stage : Stage) (task : Task) :
    taskRows wf tm maps stage task
      = (task.parameterRequests.getD []).dropLast.map
          (fun p => makeRow tm maps stage.name task.name p
            (buildAutomationText wf maps task) (some task) false)
        ++ (((task.parameterRequests.getD []).getLast?.map
            (fun p => [makeRow tm maps stage.name task.name p
              (buildAutomationText wf maps task) (some task) true])).getD []) :=
  mapIdxL_lastFlag
    (fun b p => makeRow tm maps stage.name task.name p
      (buildAutomationText wf maps task) (some task) b)
    (task.parameterRequests.getD [])

/-- A record built with the last-parameter flag off carries exactly the
placeholder task-level columns. -/
theorem placeholder_of_not_last (tm : String → Option TaskInfo) (maps : Maps)
    (st tk : Option String) (p : Param) (at2 : String) (tobj : Option Task) :
    placeholderTaskCols (makeRow tm maps st tk p at2 tobj false) = true := by
  cases tobj <;> simp [makeRow, placeholderTaskCols]

/-- Counterexample for C1: a one-parameter task with no prerequisites,
executor lock or automation yields zero records (not exactly one) with
non-placeholder task-level columns. -/
theorem c1_counterexample :
    (taskRows exC1wf (buildTaskMap exC1wf) (buildMaps exC1wf) exC1stage exC1task).length = 1
      ∧ (taskRows exC1wf (buildTaskMap exC1wf) (buildMaps exC1wf) exC1stage
          exC1task).countP nonPlaceholderTaskCols = 0 :=
  ⟨rfl, rfl⟩

/-- Claim C1 (corrected): a task with N ≥ 1 parameters yields exactly N
records; every record but the last carries the placeholders in the
dependency/executor-lock/automation columns; the last record carries the
synthesized task-level texts; hence at most one record — the last — can
have non-placeholder values there (exactly one only when the task actually
has such data). -/
theorem c1_theorem (wf : Workflow) (tm : String → Option TaskInfo) (maps : Maps)
    (stage : Stage) (task : Task) (rows : List Row) (N : Nat)
    (hrows : rows = taskRows wf tm maps stage task)
    (hN : N = (task.parameterRequests.getD []).length)
    (h1 : 1 ≤ N) :
    rows.length = N
      ∧ rows.dropLast.all placeholderTaskCols = true
      ∧ rows.getLast?.map Row.dependencies = some (some (getDependenciesText tm task))
      ∧ rows.getLast?.map Row.executorLock = some (some (getExecutorLockText tm task))
      ∧ rows.getLast?.map Row.automationDetails = some (some (buildAutomationText wf maps task))
      ∧ rows.countP nonPlaceholderTaskCols ≤ 1 := by
  subst hrows hN
  obtain ⟨lp, hlp⟩ : ∃ lp, (task.parameterRequests.getD []).getLast? = some lp := by
    rcases h : (task.parameterRequests.getD []).getLast? with _ | lp
    · rw [List.getLast?_eq_none_iff] at h
      rw [h] at h1
      exact absurd h1 (by simp)
    · exact ⟨lp, rfl⟩
  rw [taskRows_eq, hlp]
  simp only [Option.map_some', Option.getD_some]
  refine ⟨?_, ?_, ?_, ?_, ?_, ?_⟩
  · rw [List.length_append, List.length_map, List.length_dropLast]
    simp only [List.length_singleton]
    omega
  · rw [List.dropLast_concat, List.all_eq_true]
    intro r hr
    rcases List.mem_map.mp hr with ⟨p, _, rfl⟩
    exact placeholder_of_not_last tm maps stage.name task.name p _ (some task)
  · rw [List.getLast?_concat]
    simp [makeRow]
  · rw [List.getLast?_concat]
    simp [makeRow]
  · rw [List.getLast?_concat]
    simp [makeRow]
  · rw [List.countP_append]
    have hA : ((task.parameterRequests.getD []).dropLast.map
        (fun p => makeRow tm maps stage.name task.name p
          (buildAutomationText wf maps task) (some task) false)).countP
          nonPlaceholderTaskCols = 0 := by
      rw [List.countP_eq_zero]
      intro r hr
      rcases List.mem_map.mp hr with ⟨p, _, rfl⟩
      simp [nonPlaceholderTaskCols, placeholder_of_not_last]
    rw [hA]
    have hB := List.countP_le_length (l := [makeRow tm maps stage.name task.name lp
      (buildAutomationText wf maps task) (some task) true]) (p := nonPlaceholderTaskCols)
    simp only [List.length_singleton] at hB
    omega

/-- Witness for C1 at a two-parameter task with a prerequisite. -/
theorem c1_theorem_witness :
    (1 ≤ (exW1taskB.parameterRequests.getD []).length)
      ∧ ((taskRows exW1wf (buildTaskMap exW1wf) (buildMaps exW1wf) exW1stage exW1taskB).length
          = (exW1taskB.parameterRequests.getD []).length
        ∧ (taskRows exW1wf (buildTaskMap exW1wf) (buildMaps exW1wf) exW1stage
            exW1taskB).dropLast.all placeholderTaskCols = true
        ∧ (taskRows exW1wf (buildTaskMap exW1wf) (buildMaps exW1wf) exW1stage
            exW1taskB).getLast?.map Row.dependencies
          = some (some (getDependenciesText (buildTaskMap exW1wf) exW1taskB))
        ∧ (taskRows exW1wf (buildTaskMap exW1wf) (buildMaps exW1wf) exW1stage
            exW1taskB).getLast?.map Row.executorLock
          = some (some (getExecutorLockText (buildTaskMap exW1wf) exW1taskB))
        ∧ (taskRows exW1wf (buildTaskMap exW1wf) (buildMaps exW1wf) exW1stage
            exW1taskB).getLast?.map Row.automationDetails
          = some (some (buildAutomationText exW1wf (buildMaps exW1wf) exW1taskB))
        ∧ (taskRows exW1wf (buildTaskMap exW1wf) (buildMaps exW1wf) exW1stage
            exW1taskB).countP nonPlaceholderTaskCols ≤ 1) :=
  ⟨by decide,
    c1_theorem exW1wf (buildTaskMap exW1wf) (buildMaps exW1wf) exW1stage exW1taskB
      (taskRows exW1wf (buildTaskMap exW1wf) (buildMaps exW1wf) exW1stage exW1taskB)
      (exW1taskB.parameterRequests.getD []).length rfl rfl (by decide)⟩

/-! ## Claim C2: the Task Position Index and three-form lookup -/

/-- Counterexample for C2: in a definition whose only task has the
non-numeric identifier "abc", the identifier "zzz" — which denotes no task —
still resolves, because the numeric form of every non-numeric identifier is
the shared key "NaN". -/
theorem c2_counterexample :
    lookupTask (buildTaskMap exC2wf) (JVal.str "zzz")
      = some ⟨some "T1", some "S1", 1, 1⟩ := rfl

/-- Claim C2 (corrected): registration covers the raw, text and numeric
forms, so lookup right after registration succeeds and a numeric identifier
is interchangeable with its text form; lookup returns none when all key
forms miss — but an identifier denoting no task can still resolve through
the "NaN" key (see the counterexample), so "absent identifiers resolve to
nothing" holds only when all three key forms are unmapped. -/
theorem c2_theorem (m m2 : String → Option TaskInfo) (id id2 : JVal)
    (info : TaskInfo) (n : Int)
    (h1 : m2 (jsKey id2) = none) (h2 : m2 (jsNumKey id2) = none) :
    lookupTask (registerTask m id info) id = some info
      ∧ lookupTask m (JVal.num n) = lookupTask m (JVal.str (intToStr n))
      ∧ lookupTask m2 id2 = none := by
  refine ⟨?_, ?_, ?_⟩
  · have hreg : registerTask m id info (jsKey id) = some info := by
      simp [registerTask, mupd]
    simp [lookupTask, hreg]
  · unfold lookupTask
    rw [show jsNumKey (JVal.str (intToStr n)) = intToStr n from by
      show (match parseIntS (intToStr n) with
        | some k => intToStr k
        | none => "NaN") = intToStr n
      rw [parseIntS_intToStr]]
    rfl
  · simp [lookupTask, h1, h2]

/-- Witness for C2 at a concrete registration, a concrete number, and the
empty index. -/
theorem c2_theorem_witness :
    lookupTask (registerTask emptyTM (JVal.str "x") ⟨some "T", some "S", 1, 1⟩)
        (JVal.str "x") = some ⟨some "T", some "S", 1, 1⟩
      ∧ lookupTask emptyTM (JVal.num 7) = lookupTask emptyTM (JVal.str (intToStr 7))
      ∧ lookupTask emptyTM (JVal.str "y") = none :=
  c2_theorem emptyTM emptyTM (JVal.str "x") (JVal.str "y")
    ⟨some "T", some "S", 1, 1⟩ 7 rfl rfl

/-! ## Claim C4: unresolved filter values are dropped silently -/

theorem mem_ifSingleton {c : Bool} {x part : String}
    (h : part ∈ (if c then [x] else ([] : List String))) : part = x := by
  cases c
  · simp at h
  · simpa using h

theorem mem_vitemValueLine (maps : Maps) (v : VItem) (part : String)
    (h : part ∈ vitemValueLine maps v) :
    ∃ val, part = "  Value: " ++ vitemResolvedValue maps v val := by
  rcases hv : v.value with _ | val
  · rw [vitemValueLine, hv] at h
    cases h
  · rw [vitemValueLine, hv] at h
    simp only [List.mem_singleton] at h
    exact ⟨val, h⟩

theorem mem_vitemMinLine (v : VItem) (part : String) (h : part ∈ vitemMinLine v) :
    ∃ mv, part = "  Min Value: " ++ jsValToString mv := by
  rcases hv : v.minValue with _ | mv
  · rw [vitemMinLine, hv] at h
    cases h
  · rw [vitemMinLine, hv] at h
    simp only [List.mem_singleton] at h
    exact ⟨mv, h⟩

theorem mem_vitemMaxLine (v : VItem) (part : String) (h : part ∈ vitemMaxLine v) :
    ∃ mv, part = "  Max Value: " ++ jsValToString mv := by
  rcases hv : v.maxValue with _ | mv
  · rw [vitemMaxLine, hv] at h
    cases h
  · rw [vitemMaxLine, hv] at h
    simp only [List.mem_singleton] at h
    exact ⟨mv, h⟩

/-- Claim C4 (confirmed): a CONSTANT-selector filter value that is
24-hex-shaped and absent from both mappings resolves to nothing (is
dropped), a value list of only such values resolves to the empty list, and
then no "Values:" line appears among the filter's emitted lines. -/
theorem c4_theorem (maps : Maps) (s : String) (f : FilterField) (vals : List JVal)
    (hhex : hex24 s = true) (ho : maps.optionMap s = none)
    (hp : maps.propertyNameMap s = none)
    (hv : f.values = some vals) (_hsel : f.selector = some "CONSTANT")
    (hall : ∀ v ∈ vals, ∃ s2, v = JVal.str s2 ∧ hex24 s2 = true
      ∧ maps.optionMap s2 = none ∧ maps.propertyNameMap s2 = none) :
    resolveFilterValue maps (JVal.str s) = none
      ∧ resolvedFilterValues maps vals = []
      ∧ (filterFieldParts maps f).all (fun part => !(strHasPre "Values: " part)) = true := by
  have hdropAll : resolvedFilterValues maps vals = [] := by
    rw [resolvedFilterValues, List.filterMap_eq_nil_iff]
    intro v hvm
    obtain ⟨s2, rfl, hx2, ho2, hp2⟩ := hall v hvm
    simp [resolveFilterValue, hx2, ho2, hp2, jsOrO, jsTruthyS]
  refine ⟨?_, hdropAll, ?_⟩
  · simp [resolveFilterValue, hhex, ho, hp, jsOrO, jsTruthyS]
  · have hvl : filterValuesLine maps f = [] := by
      rw [filterValuesLine]
      split
      · rw [hv]
        show (if (resolvedFilterValues maps vals).length > 0 then _ else _) = _
        rw [hdropAll]
        simp
      · rfl
    rw [List.all_eq_true]
    intro part hpart
    simp only [filterFieldParts, hvl, List.append_nil, List.mem_append] at hpart
    rcases hpart with (((h | h) | h) | h) | h
    · rw [mem_optList h]
      rfl
    · rw [mem_optList h]
      rfl
    · rw [mem_optList h]
      rfl
    · rw [mem_optList h]
      rfl
    · simp only [filterRefLine] at h
      rw [mem_ifSingleton h]
      rfl

/-- Witness for C4 at a CONSTANT filter over one unresolvable 24-hex value
and the empty mappings. -/
theorem c4_theorem_witness :
    resolveFilterValue emptyMaps (JVal.str hexId) = none
      ∧ resolvedFilterValues emptyMaps [JVal.str hexId] = []
      ∧ (filterFieldParts emptyMaps exC4field).all
          (fun part => !(strHasPre "Values: " part)) = true :=
  c4_theorem emptyMaps hexId exC4field [JVal.str hexId] (by decide) rfl rfl rfl rfl
    (by
      intro v hv
      simp only [List.mem_singleton] at hv
      exact ⟨hexId, hv, by decide, rfl, rfl⟩)

/-! ## Claim C5: asymmetric handling of unresolved references -/

/-- Counterexample for C5: a validation item whose CONSTANT value is an
unresolvable 24-hex identifier shows that raw identifier in the Validations
column (the code falls back to `v.value` instead of dropping it). -/
theorem c5_counterexample :
    strContains
      ((makeRow emptyTM emptyMaps (some "S") (some "T") exC5param "" none
        false).validations.getD "") hexId = true := by decide

/-- Claim C5 (corrected): unresolved references never raise errors, and the
handling is asymmetric — the dependencies synthesizer shows the raw
identifier with the explicit "(not found in workflow)" marker, and the
validations synthesizer omits an unresolved identifier-shaped property
reference — but, contrary to the claim, an unresolved identifier-shaped
CONSTANT value is shown raw in the item's `Value:` line rather than
dropped. -/
theorem c5_theorem
    (tm : String → Option TaskInfo) (task : Task) (ids : List JVal) (tid : JVal)
    (hpre : task.prerequisiteTaskIds = some ids) (hmem : tid ∈ ids)
    (hlook : lookupTask tm tid = none)
    (maps : Maps) (v1 : VItem) (s1 : String)
    (hv1 : v1.value = some (JVal.str s1)) (hsel1 : v1.selector = some "CONSTANT")
    (hhex1 : hex24 s1 = true) (ho1 : maps.optionMap s1 = none)
    (hp1 : maps.propertyNameMap s1 = none)
    (v2 : VItem) (s2 : String) (hv2 : v2.propertyId = some (JVal.str s2))
    (hhex2 : hex24 s2 = true) (hp2 : maps.propertyNameMap s2 = none)
    (et tn tn2 : String) (i1 i2 : Nat)
    (htn2 : tn2 = "Date/Time Validation" ∨ tn2 = "Criteria Validation"
      ∨ tn2 = "Property Validation" ∨ tn2 = "Resource Validation"
      ∨ tn2 = "Relation Validation") :
    strContains (getDependenciesText tm task)
        ("Task ID: " ++ jsValToString tid ++ " (not found in workflow)") = true
      ∧ ("  Value: " ++ s1) ∈ vItemParts maps et tn i1 v1
      ∧ (vItemParts maps et tn2 i2 v2).all
          (fun part => !(strHasPre "  Property: " part)) = true := by
  refine ⟨?_, ?_, ?_⟩
  · rcases ids with _ | ⟨a, tl⟩
    · cases hmem
    · simp only [getDependenciesText, hpre]
      apply strContains_append_right
      apply strContains_joinSep
      apply List.mem_map.mpr
      refine ⟨tid, hmem, ?_⟩
      rw [hlook]
  · have hres : vitemResolvedValue maps v1 (JVal.str s1) = s1 := by
      simp only [vitemResolvedValue, hsel1, hhex1]
      rw [if_pos (by decide)]
      rw [ho1, hp1]
      rfl
    have hvl : vitemValueLine maps v1 = ["  Value: " ++ s1] := by
      rw [vitemValueLine, hv1]
      show ["  Value: " ++ vitemResolvedValue maps v1 (JVal.str s1)] = _
      rw [hres]
    simp [vItemParts, hvl]
  · have hs2 : s2 ≠ "" := by
      intro h
      rw [h] at hhex2
      exact absurd hhex2 (by decide)
    have hpl : vitemPropLine maps v2 = [] := by
      rw [vitemPropLine, hv2]
      rw [show jsTruthyV (some (JVal.str s2)) = true from by simp [jsTruthyV, hs2]]
      simp [vitemPropName, jsKey, jsValToString, hp2, jsTruthyS, hhex2]
    rw [List.all_eq_true]
    intro part hpart
    simp only [vItemParts, hpl, List.append_nil, List.mem_append] at hpart
    rcases hpart with ((((((((h | h) | h) | h) | h) | h) | h) | h) | h) | h
    · simp only [List.mem_cons, List.mem_singleton] at h
      rcases h with rfl | h
      · rcases htn2 with rfl | rfl | rfl | rfl | rfl <;> rfl
      · rcases h with rfl | h
        · rfl
        · cases h
    · rw [mem_optList h]
      rfl
    · rw [mem_optList h]
      rfl
    · obtain ⟨val, rfl⟩ := mem_vitemValueLine maps v2 part h
      rfl
    · rw [mem_optList h]
      rfl
    · rw [mem_optList h]
      rfl
    · simp only [vitemRefLine] at h
      rw [mem_ifSingleton h]
      rfl
    · rw [mem_optList h]
      rfl
    · obtain ⟨mv, rfl⟩ := mem_vitemMinLine v2 part h
      rfl
    · obtain ⟨mv, rfl⟩ := mem_vitemMaxLine v2 part h
      rfl

/-- Witness for C5 at concrete unresolvable references (an absent
prerequisite, a CONSTANT 24-hex value, and a 24-hex property reference). -/
theorem c5_theorem_witness :
    strContains (getDependenciesText emptyTM exC5task)
        ("Task ID: " ++ jsValToString (JVal.str "missing") ++ " (not found in workflow)") = true
      ∧ ("  Value: " ++ hexId) ∈ vItemParts emptyMaps "Default" "Criteria Validation" 0 exC5item
      ∧ (vItemParts emptyMaps "Default" "Criteria Validation" 0 exC5vprop).all
          (fun part => !(strHasPre "  Property: " part)) = true :=
  c5_theorem emptyTM exC5task [JVal.str "missing"] (JVal.str "missing") rfl
    (List.mem_singleton_self _) rfl emptyMaps exC5item hexId rfl rfl (by decide) rfl rfl
    exC5vprop hexId rfl (by decide) rfl "Default" "Criteria Validation"
    "Criteria Validation" 0 0 (Or.inr (Or.inl rfl))

/-! ## Claim C6: the generic humanizer — character-level lemmas -/

theorem toNat_ofNat_small : ∀ n, n < 128 → (Char.ofNat n).toNat = n := by decide

theorem char_toNat_inj {a b : Char} (h : a.toNat = b.toNat) : a = b := by
  have h2 := congrArg Char.ofNat h
  rwa [Char.ofNat_toNat, Char.ofNat_toNat] at h2

theorem char_eq_iff_toNat {a b : Char} : a = b ↔ a.toNat = b.toNat :=
  ⟨congrArg _, char_toNat_inj⟩

theorem isUpperA_iff {c : Char} : isUpperA c = true ↔ 65 ≤ c.toNat ∧ c.toNat ≤ 90 := by
  simp [isUpperA]

theorem isLowerA_iff {c : Char} : isLowerA c = true ↔ 97 ≤ c.toNat ∧ c.toNat ≤ 122 := by
  simp [isLowerA]

theorem isWsChar_iff {c : Char} :
    isWsChar c = true ↔ (9 ≤ c.toNat ∧ c.toNat ≤ 13) ∨ c.toNat = 32 := by
  simp [isWsChar]

theorem not_isUpperA {c : Char} (h : ¬(65 ≤ c.toNat ∧ c.toNat ≤ 90)) :
    isUpperA c = false := by
  rw [← Bool.not_eq_true, isUpperA_iff]
  exact h

theorem not_isLowerA {c : Char} (h : ¬(97 ≤ c.toNat ∧ c.toNat ≤ 122)) :
    isLowerA c = false := by
  rw [← Bool.not_eq_true, isLowerA_iff]
  exact h

theorem not_isWsChar {c : Char} (h : ¬((9 ≤ c.toNat ∧ c.toNat ≤ 13) ∨ c.toNat = 32)) :
    isWsChar c = false := by
  rw [← Bool.not_eq_true, isWsChar_iff]
  exact h

theorem toNat_asciiToLower_of_upper {c : Char} (h : isUpperA c = true) :
    (asciiToLower c).toNat = c.toNat + 32 := by
  rw [asciiToLower, if_pos h]
  exact toNat_ofNat_small _ (by
    have := isUpperA_iff.mp h
    omega)

theorem toNat_asciiToUpper_of_lower {c : Char} (h : isLowerA c = true) :
    (asciiToUpper c).toNat = c.toNat - 32 := by
  rw [asciiToUpper, if_pos h]
  exact toNat_ofNat_small _ (by
    have := isLowerA_iff.mp h
    omega)

theorem asciiToLower_of_not_upper {c : Char} (h : isUpperA c = false) :
    asciiToLower c = c := by
  rw [asciiToLower, if_neg (by simp [h])]

theorem asciiToUpper_of_not_lower {c : Char} (h : isLowerA c = false) :
    asciiToUpper c = c := by
  rw [asciiToUpper, if_neg (by simp [h])]

theorem lower_not_upper (c : Char) : isUpperA (asciiToLower c) = false := by
  rcases h : isUpperA c with _ | _
  · rw [asciiToLower_of_not_upper h]
    exact h
  · apply not_isUpperA
    rw [toNat_asciiToLower_of_upper h]
    have := isUpperA_iff.mp h
    omega

theorem lower_is_lower_of_upper {c : Char} (h : isUpperA c = true) :
    isLowerA (asciiToLower c) = true := by
  rw [isLowerA_iff, toNat_asciiToLower_of_upper h]
  have := isUpperA_iff.mp h
  omega

theorem upper_lower_id {c : Char} (h : isUpperA c = true) :
    asciiToUpper (asciiToLower c) = c := by
  apply char_toNat_inj
  rw [toNat_asciiToUpper_of_lower (lower_is_lower_of_upper h),
    toNat_asciiToLower_of_upper h]
  omega

theorem upper_not_lower (c : Char) : isLowerA (asciiToUpper c) = false := by
  rcases h : isLowerA c with _ | _
  · rw [asciiToUpper_of_not_lower h]
    exact h
  · apply not_isLowerA
    rw [toNat_asciiToUpper_of_lower h]
    have := isLowerA_iff.mp h
    omega

theorem ws_asciiToLower (c : Char) : isWsChar (asciiToLower c) = isWsChar c := by
  rcases h : isUpperA c with _ | _
  · rw [asciiToLower_of_not_upper h]
  · have hb := isUpperA_iff.mp h
    have h1 : isWsChar (asciiToLower c) = false := by
      apply not_isWsChar
      rw [toNat_asciiToLower_of_upper h]
      omega
    have h2 : isWsChar c = false := not_isWsChar (by omega)
    rw [h1, h2]

theorem ws_asciiToUpper (c : Char) : isWsChar (asciiToUpper c) = isWsChar c := by
  rcases h : isLowerA c with _ | _
  · rw [asciiToUpper_of_not_lower h]
  · have hb := isLowerA_iff.mp h
    have h1 : isWsChar (asciiToUpper c) = false := by
      apply not_isWsChar
      rw [toNat_asciiToUpper_of_lower h]
      omega
    have h2 : isWsChar c = false := not_isWsChar (by omega)
    rw [h1, h2]

theorem asciiToLower_space {c : Char} (h : asciiToLower c = ' ') : c = ' ' := by
  rcases hu : isUpperA c with _ | _
  · rwa [asciiToLower_of_not_upper hu] at h
  · exfalso
    have := congrArg Char.toNat h
    rw [toNat_asciiToLower_of_upper hu] at this
    have hb := isUpperA_iff.mp hu
    have hsp : (' ').toNat = 32 := rfl
    omega

theorem asciiToUpper_space {c : Char} (h : asciiToUpper c = ' ') : c = ' ' := by
  rcases hu : isLowerA c with _ | _
  · rwa [asciiToUpper_of_not_lower hu] at h
  · exfalso
    have := congrArg Char.toNat h
    rw [toNat_asciiToUpper_of_lower hu] at this
    have hb := isLowerA_iff.mp hu
    have hsp : (' ').toNat = 32 := rfl
    omega

theorem asciiToLower_underscore {c : Char} (h : asciiToLower c = '_') : c = '_' := by
  rcases hu : isUpperA c with _ | _
  · rwa [asciiToLower_of_not_upper hu] at h
  · exfalso
    have := congrArg Char.toNat h
    rw [toNat_asciiToLower_of_upper hu] at this
    have hb := isUpperA_iff.mp hu
    have hud : ('_').toNat = 95 := rfl
    omega

theorem asciiToUpper_underscore {c : Char} (h : asciiToUpper c = '_') : c = '_' := by
  rcases hu : isLowerA c with _ | _
  · rwa [asciiToUpper_of_not_lower hu] at h
  · exfalso
    have := congrArg Char.toNat h
    rw [toNat_asciiToUpper_of_lower hu] at this
    have hb := isLowerA_iff.mp hu
    have hud : ('_').toNat = 95 := rfl
    omega

theorem upper_not_ws {c : Char} (h : isUpperA c = true) : isWsChar c = false := by
  have := isUpperA_iff.mp h
  exact not_isWsChar (by omega)

theorem upper_ne_space {c : Char} (h : isUpperA c = true) : c ≠ ' ' := by
  intro he
  subst he
  exact absurd h (by decide)

theorem upper_ne_underscore {c : Char} (h : isUpperA c = true) : c ≠ '_' := by
  intro he
  subst he
  exact absurd h (by decide)

/-! ## Claim C6: list-level identity lemmas (each pipeline stage fixes an
already-normalized list) -/

theorem expandCaps_of_no_upper {l : List Char} (h : ∀ c ∈ l, isUpperA c = false) :
    expandCaps l = l := by
  induction l with
  | nil => rfl
  | cons a tl ih =>
    rw [expandCaps, if_neg (by simp [h a (List.mem_cons_self a tl)]),
      ih (fun c hc => h c (List.mem_cons_of_mem a hc))]
    rfl

theorem underscoresToSpaces_of_no {l : List Char} (h : '_' ∉ l) :
    underscoresToSpaces l = l := by
  induction l with
  | nil => rfl
  | cons a tl ih =>
    have ha : a ≠ '_' := by
      intro he
      exact h (he ▸ List.mem_cons_self a tl)
    have htl := ih (fun hm => h (List.mem_cons_of_mem a hm))
    rw [underscoresToSpaces, List.map_cons, if_neg ha]
    rw [underscoresToSpaces] at htl
    rw [htl]

theorem wsToSpace_of_all_space {l : List Char} (h : ∀ c ∈ l, isWsChar c → c = ' ') :
    wsToSpace l = l := by
  induction l with
  | nil => rfl
  | cons a tl ih =>
    have htl := ih (fun c hc => h c (List.mem_cons_of_mem a hc))
    rw [wsToSpace, List.map_cons]
    rw [wsToSpace] at htl
    rw [htl]
    rcases hw : isWsChar a with _ | _
    · rw [if_neg (by simp [hw])]
    · rw [if_pos (by simp [hw]), h a (List.mem_cons_self a tl) hw]

theorem noAdjSp_tail {a : Char} {l : List Char} (h : noAdjSp (a :: l) = true) :
    noAdjSp l = true := by
  cases l with
  | nil => rfl
  | cons b tl =>
    rw [noAdjSp, Bool.and_eq_true] at h
    exact h.2

theorem noAdjSp_pair {a b : Char} {l : List Char} (h : noAdjSp (a :: b :: l) = true) :
    ¬(a = ' ' ∧ b = ' ') := by
  rw [noAdjSp, Bool.and_eq_true] at h
  intro hab
  rcases h with ⟨h1, _⟩
  rw [hab.1, hab.2] at h1
  simp at h1

theorem squeezeSpaces_of_noAdj {l : List Char} (h : noAdjSp l = true) :
    squeezeSpaces l = l := by
  induction l with
  | nil => rfl
  | cons a tl ih =>
    cases tl with
    | nil => rfl
    | cons b rest =>
      have hp := noAdjSp_pair h
      rw [squeezeSpaces, if_neg (by simpa using hp), ih (noAdjSp_tail h)]

theorem trimLead_of_head {l : List Char}
    (h : ∀ x tl, l = x :: tl → isWsChar x = false) : trimLead l = l := by
  cases l with
  | nil => rfl
  | cons a tl =>
    rw [trimLead, List.dropWhile_cons_of_neg (by simp [h a tl rfl])]

theorem trimTrail_of_last {l : List Char}
    (h : l.getLast?.all (fun c => !(isWsChar c)) = true) : trimTrail l = l := by
  induction l with
  | nil => rfl
  | cons a tl ih =>
    cases tl with
    | nil =>
      have ha : isWsChar a = false := by
        simpa [List.getLast?] using h
      rw [trimTrail]
      show (if ([] : List Char) = [] && isWsChar a then [] else a :: trimTrail []) = [a]
      rw [ha]
      rfl
    | cons b rest =>
      have htl := ih (by rwa [List.getLast?_cons_cons] at h)
      rw [trimTrail]
      show (if trimTrail (b :: rest) = [] && isWsChar a then []
        else a :: trimTrail (b :: rest)) = a :: b :: rest
      rw [htl]
      simp

theorem lowerAll_of_no_upper {l : List Char} (h : ∀ c ∈ l, isUpperA c = false) :
    lowerAll l = l := by
  induction l with
  | nil => rfl
  | cons a tl ih =>
    have htl := ih (fun c hc => h c (List.mem_cons_of_mem a hc))
    rw [lowerAll, List.map_cons, asciiToLower_of_not_upper (h a (List.mem_cons_self a tl))]
    rw [lowerAll] at htl
    rw [htl]

/-! ## Claim C6: shape of each stage's output -/

theorem no_underscore_underscoresToSpaces (l : List Char) :
    '_' ∉ underscoresToSpaces l := by
  intro hm
  rcases List.mem_map.mp hm with ⟨d, _, hd⟩
  by_cases hdu : d = '_'
  · rw [if_pos hdu] at hd
    exact absurd hd (by decide)
  · rw [if_neg hdu] at hd
    exact hdu (hd ▸ rfl)

theorem no_underscore_wsToSpace {l : List Char} (h : '_' ∉ l) :
    '_' ∉ wsToSpace l := by
  intro hm
  rcases List.mem_map.mp hm with ⟨d, hdm, hd⟩
  by_cases hdw : isWsChar d = true
  · rw [if_pos (by simp [hdw])] at hd
    exact absurd hd (by decide)
  · rw [if_neg (by simp at hdw ⊢; exact hdw)] at hd
    exact h (hd ▸ hdm)

theorem mem_squeezeSpaces {c : Char} : ∀ {l : List Char}, c ∈ squeezeSpaces l → c ∈ l := by
  intro l
  induction l with
  | nil => intro h; cases h
  | cons a tl ih =>
    intro h
    cases tl with
    | nil => exact h
    | cons b rest =>
      rw [squeezeSpaces] at h
      split at h
      · exact List.mem_cons_of_mem a (ih h)
      · rcases List.mem_cons.mp h with rfl | h2
        · exact List.mem_cons_self _ _
        · exact List.mem_cons_of_mem a (ih h2)

theorem mem_trimLead {c : Char} {l : List Char} (h : c ∈ trimLead l) : c ∈ l :=
  (List.dropWhile_sublist isWsChar).mem h

theorem mem_trimTrail {c : Char} : ∀ {l : List Char}, c ∈ trimTrail l → c ∈ l := by
  intro l
  induction l with
  | nil => intro h; cases h
  | cons a tl ih =>
    intro h
    rw [trimTrail] at h
    split at h
    · cases h
    · rcases List.mem_cons.mp h with rfl | h2
      · exact List.mem_cons_self _ _
      · exact List.mem_cons_of_mem a (ih h2)

theorem no_underscore_lowerAll {l : List Char} (h : '_' ∉ l) : '_' ∉ lowerAll l := by
  intro hm
  rcases List.mem_map.mp hm with ⟨d, hdm, hd⟩
  exact h (asciiToLower_underscore hd ▸ hdm)

theorem no_underscore_capFirstW {l : List Char} (h : '_' ∉ l) : '_' ∉ capFirstW l := by
  cases l with
  | nil => exact h
  | cons a tl =>
    rw [capFirstW]
    split
    · intro hm
      rcases List.mem_cons.mp hm with he | hm2
      · exact h ((asciiToUpper_underscore he.symm) ▸ List.mem_cons_self a tl)
      · exact h (List.mem_cons_of_mem a hm2)
    · exact h

theorem ws_space_wsToSpace (l : List Char) :
    ∀ c ∈ wsToSpace l, isWsChar c → c = ' ' := by
  intro c hm hw
  rcases List.mem_map.mp hm with ⟨d, _, hd⟩
  by_cases hdw : isWsChar d = true
  · rw [if_pos (by simp [hdw])] at hd
    exact hd.symm
  · rw [if_neg (by simp at hdw ⊢; exact hdw)] at hd
    rw [← hd] at hw
    rw [hd] at hw
    exact absurd hw (by subst hd; simp at hdw; simp [hdw])

theorem ws_space_lowerAll {l : List Char} (h : ∀ c ∈ l, isWsChar c → c = ' ') :
    ∀ c ∈ lowerAll l, isWsChar c → c = ' ' := by
  intro c hm hw
  rcases List.mem_map.mp hm with ⟨d, hdm, hd⟩
  rw [← hd] at hw
  rw [ws_asciiToLower] at hw
  rw [← hd, h d hdm hw]
  rw [asciiToLower_of_not_upper (by decide)]

theorem ws_space_capFirstW {l : List Char} (h : ∀ c ∈ l, isWsChar c → c = ' ') :
    ∀ c ∈ capFirstW l, isWsChar c → c = ' ' := by
  cases l with
  | nil => exact h
  | cons a tl =>
    rw [capFirstW]
    split
    · intro c hm hw
      rcases List.mem_cons.mp hm with rfl | hm2
      · rw [ws_asciiToUpper] at hw
        have := h a (List.mem_cons_self a tl) hw
        rw [this]
        rw [asciiToUpper_of_not_lower (by decide)]
      · exact h c (List.mem_cons_of_mem a hm2) hw
    · exact h

theorem squeezeSpaces_head (x : Char) (xs : List Char) :
    ∃ tl, squeezeSpaces (x :: xs) = x :: tl := by
  induction xs generalizing x with
  | nil => exact ⟨[], rfl⟩
  | cons y ys ih =>
    rw [squeezeSpaces]
    split
    · rename_i hxy
      rcases ih y with ⟨tl, htl⟩
      rw [htl]
      simp only [Bool.and_eq_true, decide_eq_true_eq] at hxy
      exact ⟨tl, by rw [hxy.1, hxy.2]⟩
    · exact ⟨squeezeSpaces (y :: ys), rfl⟩

theorem noAdjSp_squeezeSpaces : ∀ (l : List Char), noAdjSp (squeezeSpaces l) = true := by
  intro l
  induction l with
  | nil => rfl
  | cons a tl ih =>
    cases tl with
    | nil => rfl
    | cons b rest =>
      rw [squeezeSpaces]
      split
      · exact ih
      · rename_i hab
        rcases squeezeSpaces_head b rest with ⟨tl2, htl2⟩
        rw [htl2]
        rw [noAdjSp, Bool.and_eq_true]
        constructor
        · rcases hd : (a = ' ' && b = ' ' : Bool) with _ | _
          · simp [hd]
          · exact absurd hd hab
        · rw [← htl2]
          exact ih

theorem noAdjSp_dropWhile {p : Char → Bool} :
    ∀ {l : List Char}, noAdjSp l = true → noAdjSp (l.dropWhile p) = true := by
  intro l
  induction l with
  | nil => intro h; exact h
  | cons a tl ih =>
    intro h
    rw [List.dropWhile_cons]
    split
    · exact ih (noAdjSp_tail h)
    · exact h

theorem trimTrail_head {x : Char} {xs : List Char} (h : trimTrail (x :: xs) ≠ []) :
    ∃ tl, trimTrail (x :: xs) = x :: tl := by
  by_cases hc : trimTrail xs = [] ∧ isWsChar x = true
  · exfalso
    apply h
    show (if trimTrail xs = [] && isWsChar x then [] else x :: trimTrail xs) = []
    rw [if_pos (by simp [hc.1, hc.2])]
  · refine ⟨trimTrail xs, ?_⟩
    show (if trimTrail xs = [] && isWsChar x then [] else x :: trimTrail xs)
      = x :: trimTrail xs
    rw [if_neg (by simpa using hc)]

theorem noAdjSp_trimTrail : ∀ {l : List Char}, noAdjSp l = true → noAdjSp (trimTrail l) = true := by
  intro l
  induction l with
  | nil => intro h; exact h
  | cons a tl ih =>
    intro h
    by_cases hc : trimTrail tl = [] ∧ isWsChar a = true
    · rw [show trimTrail (a :: tl)
          = (if trimTrail tl = [] && isWsChar a then [] else a :: trimTrail tl) from rfl]
      rw [if_pos (by simp [hc.1, hc.2])]
      rfl
    · rw [show trimTrail (a :: tl)
          = (if trimTrail tl = [] && isWsChar a then [] else a :: trimTrail tl) from rfl]
      rw [if_neg (by simpa using hc)]
      rcases htt : trimTrail tl with _ | ⟨r0, rr⟩
      · rfl
      · have htl2 : noAdjSp (trimTrail tl) = true := ih (noAdjSp_tail h)
        rw [htt] at htl2
        have hne : trimTrail tl ≠ [] := by rw [htt]; simp
        rcases tl with _ | ⟨x, xs⟩
        · rw [show trimTrail ([] : List Char) = [] from rfl] at htt
          cases htt
        · rcases trimTrail_head hne with ⟨tl3, htl3⟩
          rw [htt] at htl3
          have hx : r0 = x := by
            have h2 := congrArg (fun lst => lst.head?) htl3
            simpa using h2
          rw [noAdjSp, Bool.and_eq_true]
          refine ⟨?_, htl2⟩
          have hp := noAdjSp_pair (h : noAdjSp (a :: x :: xs) = true)
          rcases hd : (a = ' ' && r0 = ' ' : Bool) with _ | _
          · simp [hd]
          · exfalso
            simp only [Bool.and_eq_true, decide_eq_true_eq] at hd
            exact hp ⟨hd.1, hx ▸ hd.2⟩

theorem noAdjSp_map (f : Char → Char) (hf : ∀ d, f d = ' ' → d = ' ') :
    ∀ {l : List Char}, noAdjSp l = true → noAdjSp (l.map f) = true := by
  intro l
  induction l with
  | nil => intro h; exact h
  | cons a tl ih =>
    intro h
    cases tl with
    | nil => rfl
    | cons b rest =>
      rw [List.map_cons, List.map_cons, noAdjSp, Bool.and_eq_true]
      constructor
      · rcases hd : (f a = ' ' && f b = ' ' : Bool) with _ | _
        · simp [hd]
        · exfalso
          simp only [Bool.and_eq_true, decide_eq_true_eq] at hd
          exact noAdjSp_pair h ⟨hf a hd.1, hf b hd.2⟩
      · rw [← List.map_cons]
        exact ih (noAdjSp_tail h)

theorem noAdjSp_capFirstW {l : List Char} (h : noAdjSp l = true) :
    noAdjSp (capFirstW l) = true := by
  cases l with
  | nil => exact h
  | cons a tl =>
    rw [capFirstW]
    split
    · cases tl with
      | nil => rfl
      | cons b rest =>
        rw [noAdjSp, Bool.and_eq_true]
        refine ⟨?_, noAdjSp_tail h⟩
        rcases hd : (asciiToUpper a = ' ' && b = ' ' : Bool) with _ | _
        · simp [hd]
        · exfalso
          simp only [Bool.and_eq_true, decide_eq_true_eq] at hd
          exact noAdjSp_pair h ⟨asciiToUpper_space hd.1, hd.2⟩
    · exact h

theorem trimLead_head {l : List Char} :
    ∀ x tl, trimLead l = x :: tl → isWsChar x = false := by
  induction l with
  | nil => intro x tl h; cases h
  | cons a as ih =>
    intro x tl h
    rw [trimLead, List.dropWhile_cons] at h
    split at h
    · exact ih x tl h
    · rename_i hwa
      injection h with h1 _
      subst h1
      simpa using hwa

theorem head_prop_trimTrail {P : Char → Prop} {l : List Char}
    (h : ∀ x tl, l = x :: tl → P x) :
    ∀ x tl, trimTrail l = x :: tl → P x := by
  intro x tl hx
  cases l with
  | nil => cases hx
  | cons a as =>
    have hne : trimTrail (a :: as) ≠ [] := by rw [hx]; simp
    rcases trimTrail_head hne with ⟨tl2, htl2⟩
    rw [htl2] at hx
    injection hx with h1 _
    exact h1 ▸ h a as rfl

theorem trimTrail_last : ∀ (l : List Char),
    (trimTrail l).getLast?.all (fun c => !(isWsChar c)) = true := by
  intro l
  induction l with
  | nil => rfl
  | cons a tl ih =>
    by_cases hc : trimTrail tl = [] ∧ isWsChar a = true
    · rw [show trimTrail (a :: tl)
          = (if trimTrail tl = [] && isWsChar a then [] else a :: trimTrail tl) from rfl]
      rw [if_pos (by simp [hc.1, hc.2])]
      rfl
    · rw [show trimTrail (a :: tl)
          = (if trimTrail tl = [] && isWsChar a then [] else a :: trimTrail tl) from rfl]
      rw [if_neg (by simpa using hc)]
      rcases htt : trimTrail tl with _ | ⟨r0, rr⟩
      · have hwa : isWsChar a = false := by
          rcases hw : isWsChar a with _ | _
          · rfl
          · exact absurd ⟨htt, hw⟩ hc
        simp [List.getLast?, hwa]
      · rw [show (a :: r0 :: rr).getLast? = (r0 :: rr).getLast? from List.getLast?_cons_cons]
        rw [← htt]
        exact ih

theorem getLast?_map_char (f : Char → Char) :
    ∀ l : List Char, (l.map f).getLast? = l.getLast?.map f := by
  intro l
  induction l with
  | nil => rfl
  | cons a tl ih =>
    cases tl with
    | nil => rfl
    | cons b r =>
      rw [List.map_cons, List.map_cons, List.getLast?_cons_cons,
        List.getLast?_cons_cons, ← List.map_cons]
      exact ih

theorem last_ws_map {f : Char → Char} (hf : ∀ c, isWsChar (f c) = isWsChar c)
    {l : List Char} (h : l.getLast?.all (fun c => !(isWsChar c)) = true) :
    (l.map f).getLast?.all (fun c => !(isWsChar c)) = true := by
  rw [getLast?_map_char]
  rcases hg : l.getLast? with _ | d
  · rfl
  · rw [hg] at h
    simp only [Option.map_some', Option.all_some]
    rw [hf d]
    simpa using h

theorem last_ws_capFirstW {l : List Char}
    (h : l.getLast?.all (fun c => !(isWsChar c)) = true) :
    (capFirstW l).getLast?.all (fun c => !(isWsChar c)) = true := by
  cases l with
  | nil => rfl
  | cons a tl =>
    rw [capFirstW]
    split
    · cases tl with
      | nil =>
        have e1 : ([asciiToUpper a] : List Char).getLast? = some (asciiToUpper a) := by simp
        have e2 : ([a] : List Char).getLast? = some a := by simp
        rw [e2] at h
        rw [e1]
        simp only [Option.all_some] at h ⊢
        rw [ws_asciiToUpper]
        exact h
      | cons b r =>
        rw [List.getLast?_cons_cons]
        rwa [List.getLast?_cons_cons] at h
    · exact h

/-! ## Claim C6: the humanizer's output is normalized, and normalized
inputs are fixed points -/

/-- Every output of the humanizer pipeline is normalized: no capital after
the head, no underscore, all whitespace is single interior spaces, the head
is neither whitespace nor lowercase, and the last character is not
whitespace. -/
theorem humanize_out_props (l : List Char) :
    (∀ c ∈ (humanizeChars l).tail, isUpperA c = false)
      ∧ ('_' ∉ humanizeChars l)
      ∧ (∀ c ∈ humanizeChars l, isWsChar c → c = ' ')
      ∧ noAdjSp (humanizeChars l) = true
      ∧ (∀ x tl, humanizeChars l = x :: tl → isWsChar x = false ∧ isLowerA x = false)
      ∧ ((humanizeChars l).getLast?.all (fun c => !(isWsChar c)) = true) := by
  set s2 := underscoresToSpaces (expandCaps l) with hs2
  set s3 := wsToSpace s2 with hs3
  set s4 := squeezeSpaces s3 with hs4
  set s5 := trimLead s4 with hs5
  set s6 := trimTrail s5 with hs6
  set s7 := lowerAll s6 with hs7
  have hu2 : '_' ∉ s2 := no_underscore_underscoresToSpaces _
  have hu3 : '_' ∉ s3 := no_underscore_wsToSpace hu2
  have hu4 : '_' ∉ s4 := fun hm => hu3 (mem_squeezeSpaces hm)
  have hu5 : '_' ∉ s5 := fun hm => hu4 (mem_trimLead hm)
  have hu6 : '_' ∉ s6 := fun hm => hu5 (mem_trimTrail hm)
  have hu7 : '_' ∉ s7 := no_underscore_lowerAll hu6
  have hw3 : ∀ c ∈ s3, isWsChar c → c = ' ' := ws_space_wsToSpace _
  have hw4 : ∀ c ∈ s4, isWsChar c → c = ' ' :=
    fun c hm => hw3 c (mem_squeezeSpaces hm)
  have hw5 : ∀ c ∈ s5, isWsChar c → c = ' ' := fun c hm => hw4 c (mem_trimLead hm)
  have hw6 : ∀ c ∈ s6, isWsChar c → c = ' ' := fun c hm => hw5 c (mem_trimTrail hm)
  have hw7 : ∀ c ∈ s7, isWsChar c → c = ' ' := ws_space_lowerAll hw6
  have ha4 : noAdjSp s4 = true := noAdjSp_squeezeSpaces _
  have ha5 : noAdjSp s5 = true := noAdjSp_dropWhile ha4
  have ha6 : noAdjSp s6 = true := noAdjSp_trimTrail ha5
  have ha7 : noAdjSp s7 = true := noAdjSp_map asciiToLower (fun d => asciiToLower_space) ha6
  have hh5 : ∀ x tl, s5 = x :: tl → isWsChar x = false := fun x tl => trimLead_head x tl
  have hh6 : ∀ x tl, s6 = x :: tl → isWsChar x = false := head_prop_trimTrail hh5
  have hh7 : ∀ x tl, s7 = x :: tl → isWsChar x = false := by
    intro x tl hx
    rcases hc6 : s6 with _ | ⟨h0, tl0⟩
    · rw [hs7, hc6] at hx
      cases hx
    · rw [hs7, hc6, lowerAll, List.map_cons] at hx
      injection hx with h1 _
      rw [← h1, ws_asciiToLower]
      exact hh6 h0 tl0 hc6
  have hup7 : ∀ c ∈ s7, isUpperA c = false := by
    intro c hm
    rcases List.mem_map.mp hm with ⟨d, _, hd⟩
    rw [← hd]
    exact lower_not_upper d
  have hl6 : s6.getLast?.all (fun c => !(isWsChar c)) = true := trimTrail_last _
  have hl7 : s7.getLast?.all (fun c => !(isWsChar c)) = true :=
    last_ws_map ws_asciiToLower hl6
  have hout : humanizeChars l = capFirstW s7 := rfl
  rw [hout]
  refine ⟨?_, no_underscore_capFirstW hu7, ws_space_capFirstW hw7,
    noAdjSp_capFirstW ha7, ?_, last_ws_capFirstW hl7⟩
  · intro c hm
    rcases hc7 : s7 with _ | ⟨h0, tl0⟩
    · rw [hc7] at hm
      cases hm
    · rw [hc7, capFirstW] at hm
      have htl : (if isWordChar h0 then asciiToUpper h0 :: tl0 else h0 :: tl0).tail = tl0 := by
        split <;> rfl
      rw [htl] at hm
      apply hup7
      rw [hc7]
      exact List.mem_cons_of_mem h0 hm
  · intro x tl hx
    rcases hc7 : s7 with _ | ⟨h0, tl0⟩
    · rw [hc7] at hx
      cases hx
    · have hh0ws : isWsChar h0 = false := hh7 h0 tl0 hc7
      have hh0up : isUpperA h0 = false := hup7 h0 (by rw [hc7]; exact List.mem_cons_self _ _)
      rw [hc7, capFirstW] at hx
      split at hx
      · injection hx with h1 _
        rw [← h1]
        constructor
        · rw [ws_asciiToUpper]
          exact hh0ws
        · exact upper_not_lower h0
      · rename_i hword
        injection hx with h1 _
        rw [← h1]
        refine ⟨hh0ws, ?_⟩
        rcases hlow : isLowerA h0 with _ | _
        · rfl
        · exact absurd (by simp [isWordChar, hlow] : isWordChar h0 = true) hword

/-- A normalized list is a fixed point of the humanizer pipeline. -/
theorem humanize_fixed (t : List Char)
    (h_tail : ∀ c ∈ t.tail, isUpperA c = false)
    (h_und : '_' ∉ t)
    (h_ws : ∀ c ∈ t, isWsChar c → c = ' ')
    (h_adj : noAdjSp t = true)
    (h_head : ∀ x tl, t = x :: tl → isWsChar x = false ∧ isLowerA x = false)
    (h_last : t.getLast?.all (fun c => !(isWsChar c)) = true) :
    humanizeChars t = t := by
  cases t with
  | nil => rfl
  | cons h tl =>
    have htl_nu : ∀ c ∈ tl, isUpperA c = false := by
      intro c hc
      exact h_tail c (by simpa using hc)
    have hexp : expandCaps (h :: tl) = (if isUpperA h then [' ', h] else [h]) ++ tl := by
      rw [expandCaps, expandCaps_of_no_upper htl_nu]
    have hhead := h_head h tl rfl
    rcases hcase : isUpperA h with _ | _
    · -- head not a capital: every stage fixes h :: tl
      rw [humanizeChars, hexp, hcase]
      rw [if_neg (by simp), List.singleton_append]
      rw [underscoresToSpaces_of_no h_und, wsToSpace_of_all_space h_ws,
        squeezeSpaces_of_noAdj h_adj,
        trimLead_of_head (by
          intro x tl2 he
          injection he with h1 _
          exact h1 ▸ hhead.1),
        trimTrail_of_last h_last]
      rw [show lowerAll (h :: tl) = asciiToLower h :: lowerAll tl from rfl,
        lowerAll_of_no_upper htl_nu, asciiToLower_of_not_upper hcase]
      rw [capFirstW]
      split
      · rw [asciiToUpper_of_not_lower hhead.2]
      · rfl
    · -- head is a capital: a space is inserted, then trimmed away again
      have hhws : isWsChar h = false := upper_not_ws hcase
      have hs : (if isUpperA h then [' ', h] else [h]) ++ tl = ' ' :: h :: tl := by
        rw [hcase]
        rfl
      rw [humanizeChars, hexp, hs]
      have hu : '_' ∉ (' ' :: h :: tl : List Char) := by
        intro hm
        rcases List.mem_cons.mp hm with he | hm2
        · exact absurd he.symm (by decide)
        · exact h_und hm2
      have hwsp : ∀ c ∈ (' ' :: h :: tl : List Char), isWsChar c → c = ' ' := by
        intro c hm hw
        rcases List.mem_cons.mp hm with rfl | hm2
        · rfl
        · exact h_ws c hm2 hw
      have hadj : noAdjSp (' ' :: h :: tl) = true := by
        rw [noAdjSp, Bool.and_eq_true]
        constructor
        · rcases hd : (' ' = ' ' && h = ' ' : Bool) with _ | _
          · simp [hd]
          · exfalso
            simp only [Bool.and_eq_true, decide_eq_true_eq] at hd
            exact upper_ne_space hcase hd.2
        · exact h_adj
      rw [underscoresToSpaces_of_no hu, wsToSpace_of_all_space hwsp,
        squeezeSpaces_of_noAdj hadj]
      rw [trimLead, List.dropWhile_cons_of_pos (by decide),
        List.dropWhile_cons_of_neg (by simp [hhws])]
      rw [trimTrail_of_last h_last]
      rw [show lowerAll (h :: tl) = asciiToLower h :: lowerAll tl from rfl,
        lowerAll_of_no_upper htl_nu]
      rw [capFirstW]
      split
      · rw [upper_lower_id hcase]
      · rename_i hword
        exfalso
        apply hword
        simp [isWordChar, lower_is_lower_of_upper hcase]

/-- Idempotence of the humanizer pipeline on character lists. -/
theorem humanizeChars_idem (l : List Char) :
    humanizeChars (humanizeChars l) = humanizeChars l := by
  obtain ⟨h1, h2, h3, h4, h5, h6⟩ := humanize_out_props l
  exact humanize_fixed _ h1 h2 h3 h4 h5 h6

/-- Counterexample for C6: on "SOFT_Exception" the humanizer yields
"S o f t exception" (a space is inserted before every capital, including
consecutive ones), not the claimed "Soft exception". -/
theorem c6_counterexample :
    formatKey "SOFT_Exception" ≠ "Soft exception"
      ∧ formatKey "SOFT_Exception" = "S o f t exception" := by
  refine ⟨?_, rfl⟩
  intro h
  exact absurd h (by decide)

/-- Claim C6 (corrected): the generic humanizer is idempotent on every
string, and on the unrecognized code "SOFT_Exception" it yields
"S o f t exception" — the rule spaces out every capital letter, so a run
of capitals is not folded into one word. -/
theorem c6_theorem (s : String) :
    formatKey (formatKey s) = formatKey s
      ∧ formatKey "SOFT_Exception" = "S o f t exception" := by
  refine ⟨?_, rfl⟩
  by_cases hs : s = ""
  · subst hs
    rfl
  · have hinner : formatKey s = String.mk (humanizeChars s.data) := by
      rw [formatKey, if_neg hs]
    rw [hinner]
    by_cases h2 : String.mk (humanizeChars s.data) = ""
    · rw [formatKey, if_pos h2, h2]
    · rw [formatKey, if_neg h2]
      rw [show (String.mk (humanizeChars s.data)).data = humanizeChars s.data from rfl]
      rw [humanizeChars_idem]

end Leucine
